import Mathlib

/-!
# Verification of the StudyBuddy structured-record recovery pipeline

Shallow embedding of the extraction/normalization pipeline of
`backend/services/ai_service.py` and the quiz validation / answer-position
randomization of `backend/main.py`, together with proofs and refutations of
the frozen specification claims.

Conventions:
* Python strings are modelled as `List Char` (wrappers take `String`).
* Parsed JSON values are modelled by `JVal`; `json.loads` is modelled by
  `jparse`, restricted to the JSON subset the pipeline exercises
  (integer numerals only: no fraction/exponent parts, no `NaN`/`Infinity`,
  no surrogate-pair `\uXXXX` escapes).  All concrete inputs used in
  theorems below stay inside this subset, where the model agrees with
  `json.loads`.
* Python code that can raise is modelled with `Except PyErr`; `try/except`
  blocks are modelled by matching on the `Except` value.
-/

set_option maxRecDepth 10000
set_option maxHeartbeats 1000000

namespace StudyBuddy

/-- Python runtime errors that the modelled code can raise. -/
inductive PyErr where
  | indexError
  | typeError
  | attributeError
  deriving DecidableEq, Repr

/-- JSON whitespace accepted between tokens by `json.loads`
(space, tab, newline, carriage return). -/
def isJsonWs (c : Char) : Bool :=
  c = ' ' || c = '\t' || c = '\n' || c = '\r'

/-- ASCII whitespace of Python `\s` in `re` and of `str.strip()`
(space, tab, newline, carriage return, form feed, vertical tab). -/
def isPyWs (c : Char) : Bool :=
  c = ' ' || c = '\t' || c = '\n' || c = '\r' || c = '\x0b' || c = '\x0c'

/-- `str.strip()`: remove leading and trailing whitespace. -/
def pyStrip (s : List Char) : List Char :=
  ((s.dropWhile isPyWs).reverse.dropWhile isPyWs).reverse

/-- `str.lower()` for the ASCII range used by the pipeline. -/
def pyLower (s : List Char) : List Char :=
  s.map Char.toLower

/-- A parsed JSON value (`json.loads` result).  Numbers are restricted to
integers, the only numerals occurring in the inputs considered here.
Objects keep their key/value pairs in source order; lookup takes the last
binding, matching Python `dict` construction from repeated keys. -/
inductive JVal where
  | null
  | bool (b : Bool)
  | num (n : Int)
  | str (s : String)
  | arr (xs : List JVal)
  | obj (m : List (String × JVal))

mutual

/-- Decidable equality for `JVal` (hand-rolled, as the nested `List`
occurrences defeat automatic derivation). -/
def JVal.decEq : (a b : JVal) → Decidable (a = b)
  | .null, .null => .isTrue rfl
  | .bool a, .bool b =>
    match Bool.decEq a b with
    | .isTrue h => .isTrue (congrArg JVal.bool h)
    | .isFalse h => .isFalse (fun hh => h (JVal.bool.inj hh))
  | .num a, .num b =>
    match Int.decEq a b with
    | .isTrue h => .isTrue (congrArg JVal.num h)
    | .isFalse h => .isFalse (fun hh => h (JVal.num.inj hh))
  | .str a, .str b =>
    match String.decEq a b with
    | .isTrue h => .isTrue (congrArg JVal.str h)
    | .isFalse h => .isFalse (fun hh => h (JVal.str.inj hh))
  | .arr xs, .arr ys =>
    match JVal.decEqList xs ys with
    | .isTrue h => .isTrue (congrArg JVal.arr h)
    | .isFalse h => .isFalse (fun hh => h (JVal.arr.inj hh))
  | .obj m, .obj n =>
    match JVal.decEqPairs m n with
    | .isTrue h => .isTrue (congrArg JVal.obj h)
    | .isFalse h => .isFalse (fun hh => h (JVal.obj.inj hh))
  | .null, .bool _ => .isFalse (fun h => JVal.noConfusion h)
  | .null, .num _ => .isFalse (fun h => JVal.noConfusion h)
  | .null, .str _ => .isFalse (fun h => JVal.noConfusion h)
  | .null, .arr _ => .isFalse (fun h => JVal.noConfusion h)
  | .null, .obj _ => .isFalse (fun h => JVal.noConfusion h)
  | .bool _, .null => .isFalse (fun h => JVal.noConfusion h)
  | .bool _, .num _ => .isFalse (fun h => JVal.noConfusion h)
  | .bool _, .str _ => .isFalse (fun h => JVal.noConfusion h)
  | .bool _, .arr _ => .isFalse (fun h => JVal.noConfusion h)
  | .bool _, .obj _ => .isFalse (fun h => JVal.noConfusion h)
  | .num _, .null => .isFalse (fun h => JVal.noConfusion h)
  | .num _, .bool _ => .isFalse (fun h => JVal.noConfusion h)
  | .num _, .str _ => .isFalse (fun h => JVal.noConfusion h)
  | .num _, .arr _ => .isFalse (fun h => JVal.noConfusion h)
  | .num _, .obj _ => .isFalse (fun h => JVal.noConfusion h)
  | .str _, .null => .isFalse (fun h => JVal.noConfusion h)
  | .str _, .bool _ => .isFalse (fun h => JVal.noConfusion h)
  | .str _, .num _ => .isFalse (fun h => JVal.noConfusion h)
  | .str _, .arr _ => .isFalse (fun h => JVal.noConfusion h)
  | .str _, .obj _ => .isFalse (fun h => JVal.noConfusion h)
  | .arr _, .null => .isFalse (fun h => JVal.noConfusion h)
  | .arr _, .bool _ => .isFalse (fun h => JVal.noConfusion h)
  | .arr _, .num _ => .isFalse (fun h => JVal.noConfusion h)
  | .arr _, .str _ => .isFalse (fun h => JVal.noConfusion h)
  | .arr _, .obj _ => .isFalse (fun h => JVal.noConfusion h)
  | .obj _, .null => .isFalse (fun h => JVal.noConfusion h)
  | .obj _, .bool _ => .isFalse (fun h => JVal.noConfusion h)
  | .obj _, .num _ => .isFalse (fun h => JVal.noConfusion h)
  | .obj _, .str _ => .isFalse (fun h => JVal.noConfusion h)
  | .obj _, .arr _ => .isFalse (fun h => JVal.noConfusion h)

/-- Decidable equality of `JVal` lists. -/
def JVal.decEqList : (xs ys : List JVal) → Decidable (xs = ys)
  | [], [] => .isTrue rfl
  | [], _ :: _ => .isFalse (fun h => List.noConfusion h)
  | _ :: _, [] => .isFalse (fun h => List.noConfusion h)
  | x :: xs, y :: ys =>
    match JVal.decEq x y, JVal.decEqList xs ys with
    | .isTrue h1, .isTrue h2 => .isTrue (by rw [h1, h2])
    | .isFalse h1, _ =>
      .isFalse (fun h => by injection h with hh ht; exact h1 hh)
    | _, .isFalse h2 =>
      .isFalse (fun h => by injection h with hh ht; exact h2 ht)

/-- Decidable equality of `JVal` key/value pair lists. -/
def JVal.decEqPairs :
    (xs ys : List (String × JVal)) → Decidable (xs = ys)
  | [], [] => .isTrue rfl
  | [], _ :: _ => .isFalse (fun h => List.noConfusion h)
  | _ :: _, [] => .isFalse (fun h => List.noConfusion h)
  | (k, v) :: xs, (l, w) :: ys =>
    match String.decEq k l, JVal.decEq v w, JVal.decEqPairs xs ys with
    | .isTrue h1, .isTrue h2, .isTrue h3 => .isTrue (by rw [h1, h2, h3])
    | .isFalse h1, _, _ =>
      .isFalse (fun h => by
        injection h with hh ht; exact h1 (congrArg Prod.fst hh))
    | _, .isFalse h2, _ =>
      .isFalse (fun h => by
        injection h with hh ht; exact h2 (congrArg Prod.snd hh))
    | _, _, .isFalse h3 =>
      .isFalse (fun h => by injection h with hh ht; exact h3 ht)

end

instance : DecidableEq JVal := JVal.decEq

/-- `dict.get(k)` (with `None` for a missing key): last binding wins,
as in a Python dict built by inserting the pairs in order. -/
def jget (m : List (String × JVal)) (k : String) : Option JVal :=
  (m.reverse.find? (fun p => p.1 = k)).map (·.2)

/-- `dict.get(k, d)`. -/
def jgetD (m : List (String × JVal)) (k : String) (d : JVal) : JVal :=
  (jget m k).getD d

/-- `d[k] = v`: replace the last binding of `k`, or append a new one. -/
def jset (m : List (String × JVal)) (k : String) (v : JVal) : List (String × JVal) :=
  if (m.find? (fun p => p.1 = k)).isSome then
    m.map (fun p => if p.1 = k then (k, v) else p)
  else
    m ++ [(k, v)]

/-- Python truthiness of a parsed JSON value: `None`, `False`, `0`, `""`,
`[]` and `{}` are falsy, everything else truthy. -/
def truthy : JVal → Bool
  | .null => false
  | .bool b => b
  | .num n => n ≠ 0
  | .str s => s ≠ ""
  | .arr xs => !xs.isEmpty
  | .obj m => !m.isEmpty

/-- Python `a or b` on JSON values (with `None` for absent operands). -/
def pyOr (a b : JVal) : JVal :=
  if truthy a then a else b

/-- `dict.get(k) or default` written over an object's pair list. -/
def jgetOr (m : List (String × JVal)) (k : String) (d : JVal) : JVal :=
  pyOr (jgetD m k .null) d

/-! ## Model of `json.loads` (restricted subset)

A fuel-indexed recursive-descent reader.  `jparseVal fuel cs` reads one
value from the front of `cs` (leading whitespace already consumed) and
returns it with the unconsumed rest; `jparse` requires only whitespace to
remain, as `json.loads` does.  The fuel is an upper bound on recursion
depth; `jparse` supplies the input length, which always suffices since
every recursive call consumes at least one character. -/

/-- Read the decimal digits prefix. -/
def readDigits : List Char → (List Char × List Char)
  | [] => ([], [])
  | c :: cs =>
    if c.isDigit then
      let (ds, rest) := readDigits cs
      (c :: ds, rest)
    else ([], c :: cs)

/-- Digits to a natural number (most significant first). -/
def digitsToNat (ds : List Char) : Nat :=
  ds.foldl (fun acc c => acc * 10 + (c.toNat - '0'.toNat)) 0

/-- Value of a hex digit, if it is one (codes 48–57 are `0`–`9`, 97–102
are `a`–`f`, 65–70 are `A`–`F`). -/
def hexVal (c : Char) : Option Nat :=
  let n := c.toNat
  if 48 ≤ n ∧ n ≤ 57 then some (n - 48)
  else if 97 ≤ n ∧ n ≤ 102 then some (n - 87)
  else if 65 ≤ n ∧ n ≤ 70 then some (n - 55)
  else none

/-- Read a JSON string body after the opening quote, handling the escape
sequences `\" \\ \/ \b \f \n \r \t` and basic (non-surrogate) `\uXXXX`. -/
def jreadStr (fuel : Nat) (cs : List Char) : Option (List Char × List Char) :=
  match fuel, cs with
  | 0, _ => none
  | _, [] => none
  | fuel + 1, c :: cs =>
    if c = '"' then some ([], cs)
    else if c = '\\' then
      match cs with
      | [] => none
      | e :: cs' =>
        if e = '"' ∨ e = '\\' ∨ e = '/' then
          (jreadStr fuel cs').map (fun (s, r) => (e :: s, r))
        else if e = 'b' then (jreadStr fuel cs').map (fun (s, r) => ('\x08' :: s, r))
        else if e = 'f' then (jreadStr fuel cs').map (fun (s, r) => ('\x0c' :: s, r))
        else if e = 'n' then (jreadStr fuel cs').map (fun (s, r) => ('\n' :: s, r))
        else if e = 'r' then (jreadStr fuel cs').map (fun (s, r) => ('\r' :: s, r))
        else if e = 't' then (jreadStr fuel cs').map (fun (s, r) => ('\t' :: s, r))
        else if e = 'u' then
          match cs' with
          | h1 :: h2 :: h3 :: h4 :: cs'' =>
            match hexVal h1, hexVal h2, hexVal h3, hexVal h4 with
            | some v1, some v2, some v3, some v4 =>
              let code := ((v1 * 16 + v2) * 16 + v3) * 16 + v4
              (jreadStr fuel cs'').map (fun (s, r) => (Char.ofNat code :: s, r))
            | _, _, _, _ => none
          | _ => none
        else none
    else if c.toNat < 0x20 then none
    else (jreadStr fuel cs).map (fun (s, r) => (c :: s, r))

/-- A numeral followed by `.`, `e` or `E` lies outside the modelled integer
subset (it is a float for `json.loads`); the model rejects it. -/
def jnumContinues : List Char → Bool
  | [] => false
  | c :: _ => c = '.' || c = 'e' || c = 'E'

mutual

/-- Read one JSON value from the front of the input. -/
def jparseVal (fuel : Nat) (cs : List Char) : Option (JVal × List Char) :=
  match fuel with
  | 0 => none
  | fuel + 1 =>
    match cs with
    | [] => none
    | c :: cs' =>
      if c = 'n' then
        match cs' with
        | 'u' :: 'l' :: 'l' :: rest => some (.null, rest)
        | _ => none
      else if c = 't' then
        match cs' with
        | 'r' :: 'u' :: 'e' :: rest => some (.bool true, rest)
        | _ => none
      else if c = 'f' then
        match cs' with
        | 'a' :: 'l' :: 's' :: 'e' :: rest => some (.bool false, rest)
        | _ => none
      else if c = '"' then
        (jreadStr fuel cs').map (fun (s, r) => (.str (String.mk s), r))
      else if c = '-' then
        match readDigits cs' with
        | ([], _) => none
        | (d :: ds, rest) =>
          if d = '0' ∧ ds ≠ [] then none
          else if jnumContinues rest then none
          else some (.num (-(digitsToNat (d :: ds) : Int)), rest)
      else if c.isDigit then
        match readDigits (c :: cs') with
        | ([], _) => none
        | (d :: ds, rest) =>
          if d = '0' ∧ ds ≠ [] then none
          else if jnumContinues rest then none
          else some (.num (digitsToNat (d :: ds) : Int), rest)
      else if c = '[' then
        let rest := cs'.dropWhile isJsonWs
        match rest with
        | ']' :: rest' => some (.arr [], rest')
        | _ =>
          (jparseArr fuel rest).map (fun (xs, r) => (.arr xs, r))
      else if c = '{' then
        let rest := cs'.dropWhile isJsonWs
        match rest with
        | '}' :: rest' => some (.obj [], rest')
        | _ =>
          (jparseObj fuel rest).map (fun (m, r) => (.obj m, r))
      else none

/-- Read the elements of a non-empty array (cursor at the first element). -/
def jparseArr (fuel : Nat) (cs : List Char) : Option (List JVal × List Char) :=
  match fuel with
  | 0 => none
  | fuel + 1 =>
    match jparseVal fuel cs with
    | none => none
    | some (v, rest) =>
      match rest.dropWhile isJsonWs with
      | ',' :: rest' =>
        (jparseArr fuel (rest'.dropWhile isJsonWs)).map
          (fun (xs, r) => (v :: xs, r))
      | ']' :: rest' => some ([v], rest')
      | _ => none

/-- Read the members of a non-empty object (cursor at the first key). -/
def jparseObj (fuel : Nat) (cs : List Char) :
    Option (List (String × JVal) × List Char) :=
  match fuel with
  | 0 => none
  | fuel + 1 =>
    match cs with
    | '"' :: cs' =>
      match jreadStr fuel cs' with
      | none => none
      | some (k, rest) =>
        match rest.dropWhile isJsonWs with
        | ':' :: rest' =>
          match jparseVal fuel (rest'.dropWhile isJsonWs) with
          | none => none
          | some (v, rest'') =>
            match rest''.dropWhile isJsonWs with
            | ',' :: rest3 =>
              (jparseObj fuel (rest3.dropWhile isJsonWs)).map
                (fun (m, r) => ((String.mk k, v) :: m, r))
            | '}' :: rest3 => some ([(String.mk k, v)], rest3)
            | _ => none
        | _ => none
    | _ => none

end

/-- Model of `json.loads` on a character list: one value, with only
whitespace allowed before and after.  The fuel `2 * length + 2` bounds the
recursion depth generously. -/
def jparseL (cs : List Char) : Option JVal :=
  match jparseVal (2 * cs.length + 2) (cs.dropWhile isJsonWs) with
  | none => none
  | some (v, rest) =>
    if (rest.dropWhile isJsonWs).isEmpty then some v else none

/-- Model of `json.loads` on a string. -/
def jparse (s : String) : Option JVal :=
  jparseL s.toList

/-! ## `AIService._fix_json` (the Syntax Repair Pass)

Three `re.sub` rewrites applied in order. -/

/-- First rewrite: `re.sub(r",(\s*[}\]])", r"\1", s)` — remove a comma
followed by optional whitespace and a closing brace/bracket, keeping the
whitespace and the bracket; scanning resumes after the replaced match,
exactly as `re.sub` does. -/
def fixSub1F : Nat → List Char → List Char
  | 0, l => l
  | _, [] => []
  | fuel + 1, c :: rest =>
    if c = ',' then
      match rest.dropWhile isPyWs with
      | b :: rest3 =>
        if b = '}' ∨ b = ']' then
          rest.takeWhile isPyWs ++ b :: fixSub1F fuel rest3
        else c :: fixSub1F fuel rest
      | [] => c :: fixSub1F fuel rest
    else c :: fixSub1F fuel rest

/-- First rewrite entry point.  The fuel `length` suffices: every
recursive call drops at least one character. -/
def fixSub1 (s : List Char) : List Char :=
  fixSub1F s.length s

/-- Second rewrite: `re.sub(r"(?<!\\)\n", "\\n", s)`.  The replacement
template `\n` is processed by `re.sub` into the newline character itself,
so each newline not preceded by a backslash is replaced by a newline; the
rewrite is modelled faithfully (tracking the look-behind over the original
text) even though it is extensionally the identity. -/
def fixSub2Aux (prev : Option Char) : List Char → List Char
  | [] => []
  | c :: rest =>
    if c = '\n' ∧ prev ≠ some '\\' then
      '\n' :: fixSub2Aux (some '\n') rest
    else
      c :: fixSub2Aux (some c) rest

/-- Second rewrite entry point. -/
def fixSub2 (s : List Char) : List Char :=
  fixSub2Aux none s

/-- Everything up to the end of the current line (`.` of a non-DOTALL
Python regex matches exactly these characters). -/
def isNotNewline (c : Char) : Bool := c != '\n'

/-- Third rewrite: `re.sub(r"//.*?$", "", s, flags=re.MULTILINE)` — strip
from each `//` to the end of its line (`.` does not cross a newline, and
the lazy quantifier before `$` still reaches the end of the line). -/
def fixSub3F : Nat → List Char → List Char
  | 0, _ => []
  | _, [] => []
  | fuel + 1, '/' :: '/' :: rest => fixSub3F fuel (rest.dropWhile isNotNewline)
  | fuel + 1, c :: rest => c :: fixSub3F fuel rest

/-- Third rewrite entry point. -/
def fixSub3 (s : List Char) : List Char :=
  fixSub3F s.length s

/-- `AIService._fix_json`: the three rewrites in source order. -/
def fixJson (s : List Char) : List Char :=
  fixSub3 (fixSub2 (fixSub1 s))

/-- `_fix_json` on strings. -/
def fixJsonS (s : String) : String :=
  String.mk (fixJson s.toList)

/-! ## The two delimiter-balanced scanners

`parse_quiz_questions` strategy 2 counts `[`/`]` with no string state;
the salvage scanner `_extract_questions_from_broken_json` tracks
in-string and escape state while counting `{`/`}`. -/

/-- The bracket-count loop of `parse_quiz_questions` strategy 2
(`ai_service.py` lines 437–446), run on the text from a `[` position:
counts every `[`/`]`, with no notion of strings, and returns the span
length `end_pos - start_pos` when the count returns to zero (the code
keeps `end_pos = start_pos`, i.e. reports no span, otherwise). -/
def scanArrayLenAux : List Char → Nat → Int → Option Nat
  | [], _, _ => none
  | c :: rest, i, depth =>
    if c = '[' then scanArrayLenAux rest (i + 1) (depth + 1)
    else if c = ']' then
      if depth - 1 = 0 then some (i + 1)
      else scanArrayLenAux rest (i + 1) (depth - 1)
    else scanArrayLenAux rest (i + 1) depth

/-- Span length found by the string-blind array scan. -/
def scanArrayLen (cs : List Char) : Option Nat :=
  scanArrayLenAux cs 0 0

/-- The balanced-brace loop of `_extract_questions_from_broken_json`
(`ai_service.py` lines 598–664), run on the text from a `{` position:
tracks escape and in-string state, counts `{`/`}` only outside strings,
and returns the offset `j` of the closing brace (the object then spans
`j + 1` characters). -/
def scanObjectEndAux : List Char → Nat → Int → Bool → Bool → Option Nat
  | [], _, _, _, _ => none
  | c :: rest, j, depth, inStr, esc =>
    if esc then scanObjectEndAux rest (j + 1) depth inStr false
    else if c = '\\' then scanObjectEndAux rest (j + 1) depth inStr true
    else if c = '"' then scanObjectEndAux rest (j + 1) depth (!inStr) false
    else if !inStr then
      if c = '{' then scanObjectEndAux rest (j + 1) (depth + 1) inStr esc
      else if c = '}' then
        if depth - 1 = 0 then some j
        else scanObjectEndAux rest (j + 1) (depth - 1) inStr esc
      else scanObjectEndAux rest (j + 1) depth inStr esc
    else scanObjectEndAux rest (j + 1) depth inStr esc

/-- Offset of the balancing `}` found by the string-aware object scan. -/
def scanObjectEnd (cs : List Char) : Option Nat :=
  scanObjectEndAux cs 0 0 false false

/-! ## Per-record salvage scanners -/

/-- Consume a literal prefix, returning the rest of the input. -/
def eatLit : List Char → List Char → Option (List Char)
  | [], cs => some cs
  | p :: ps, c :: cs => if c = p then eatLit ps cs else none
  | _ :: _, [] => none

/-- Consume `\s*` (greedy; deterministic whenever the following token is
not whitespace, as in every pattern modelled here). -/
def eatWs (cs : List Char) : List Char :=
  cs.dropWhile isPyWs

/-- Consume `"[^"]*"`: a quote, a maximal quote-free run, a quote. -/
def eatQuoted (cs : List Char) : Option (List Char) :=
  match cs with
  | '"' :: rest =>
    match rest.dropWhile (fun c => c != '"') with
    | '"' :: rest2 => some rest2
    | _ => none
  | _ => none

/-- The field defaulting applied by `_extract_questions_from_broken_json`
to a recovered record: fill falsy/missing `id` (with the supplied string),
`correctAnswer` (`"a"`), `explanation` (`"Generated question"`) and
`topic` (`"General"`), in source order. -/
def applyQDefaults (m : List (String × JVal)) (idDefault : String) :
    List (String × JVal) :=
  let m1 := if truthy (jgetD m "id" .null) then m
            else jset m "id" (.str idDefault)
  let m2 := if truthy (jgetD m1 "correctAnswer" .null) then m1
            else jset m1 "correctAnswer" (.str "a")
  let m3 := if truthy (jgetD m2 "explanation" .null) then m2
            else jset m2 "explanation" (.str "Generated question")
  if truthy (jgetD m3 "topic" .null) then m3
  else jset m3 "topic" (.str "General")

/-- Strategy 1 of `_extract_questions_from_broken_json`: walk the text;
at every `{` run the string-aware balanced scan; on a complete span, parse
it and keep it when it is an object with `text` and `options` keys whose
`options` is a list of length ≥ 2, applying the defaults; resume after the
span (after a complete span even when the parse fails, one character on
otherwise).  Each kept record is paired with the text offset of its
opening brace (the source's `start_pos`). -/
def extractQObjsF : Nat → List Char → Nat → Nat → List (Nat × JVal)
  | 0, _, _, _ => []
  | _, [], _, _ => []
  | fuel + 1, c :: rest, i, cnt =>
    if c = '{' then
      match scanObjectEnd (c :: rest) with
      | some j =>
        let objStr := (c :: rest).take (j + 1)
        let next := (c :: rest).drop (j + 1)
        match jparseL objStr with
        | some (.obj m) =>
          if (jget m "text").isSome ∧ (jget m "options").isSome then
            match jget m "options" with
            | some (.arr opts) =>
              if opts.length ≥ 2 then
                (i, .obj (applyQDefaults m (toString (cnt + 1)))) ::
                  extractQObjsF fuel next (i + j + 1) (cnt + 1)
              else extractQObjsF fuel next (i + j + 1) cnt
            | _ => extractQObjsF fuel next (i + j + 1) cnt
          else extractQObjsF fuel next (i + j + 1) cnt
        | _ => extractQObjsF fuel next (i + j + 1) cnt
      | none => extractQObjsF fuel rest (i + 1) cnt
    else extractQObjsF fuel rest (i + 1) cnt

/-- Match the strategy-2 fallback pattern
`\{"id"\s*:\s*"[^"]*"\s*,\s*"text"\s*:\s*"[^"]*"\s*,\s*"options"\s*:\s*\[[^\]]*\]`
at the current position, returning the unconsumed rest. -/
def matchQPat (cs : List Char) : Option (List Char) := do
  let r ← eatLit ['{', '"', 'i', 'd', '"'] cs
  let r ← eatLit [':'] (eatWs r)
  let r ← eatQuoted (eatWs r)
  let r ← eatLit [','] (eatWs r)
  let r ← eatLit ['"', 't', 'e', 'x', 't', '"'] (eatWs r)
  let r ← eatLit [':'] (eatWs r)
  let r ← eatQuoted (eatWs r)
  let r ← eatLit [','] (eatWs r)
  let r ← eatLit ['"', 'o', 'p', 't', 'i', 'o', 'n', 's', '"'] (eatWs r)
  let r ← eatLit [':'] (eatWs r)
  let r ← eatLit ['['] (eatWs r)
  match r.dropWhile (fun c => c != ']') with
  | ']' :: rest2 => some rest2
  | _ => none

/-- `re.finditer` of the fallback pattern: scan left to right, restarting
after each match; yields (start offset, match length) pairs.  A match
always consumes at least the literal `{"id"`, so the guard requiring the
rest to be shorter than the input is always taken; it makes the
progress explicit. -/
def findQPatF : Nat → List Char → Nat → List (Nat × Nat)
  | 0, _, _ => []
  | _, [], _ => []
  | fuel + 1, c :: rest, i =>
    match matchQPat (c :: rest) with
    | some r =>
      if r.length < (c :: rest).length then
        (i, (c :: rest).length - r.length) ::
          findQPatF fuel r (i + ((c :: rest).length - r.length))
      else findQPatF fuel rest (i + 1)
    | none => findQPatF fuel rest (i + 1)

/-- Match `"options"\s*:\s*\[.*?\]` at the current position (inner search
of the fallback branch), returning the unconsumed rest. -/
def matchOptionsAt (cs : List Char) : Option (List Char) := do
  let r ← eatLit ['"', 'o', 'p', 't', 'i', 'o', 'n', 's', '"'] cs
  let r ← eatLit [':'] (eatWs r)
  let r ← eatLit ['['] (eatWs r)
  match r.dropWhile (fun c => c != ']') with
  | ']' :: rest2 => some rest2
  | _ => none

/-- `re.search` for the inner `"options"` pattern: first position where it
matches, returning the end offset (exclusive) of the match. -/
def findOptionsEnd : List Char → Nat → Option Nat
  | [], _ => none
  | c :: rest, p =>
    match matchOptionsAt (c :: rest) with
    | some r => some (p + ((c :: rest).length - r.length))
    | none => findOptionsEnd rest (p + 1)

/-- Process one fallback match (`obj_str`): unless it already ends with
`}`, cut it at the end of the `options` array, append a closing brace,
parse, and keep the object when it has `text` and `options` keys, with
the defaults applied (`id` defaulting to the 1-based match index). -/
def qFallbackOne (objStr : List Char) (idx : Nat) : Option JVal :=
  if objStr.getLast? = some '}' then none
  else
    match findOptionsEnd objStr 0 with
    | none => none
    | some e =>
      match jparseL (objStr.take e ++ ['}']) with
      | some (.obj m) =>
        if (jget m "text").isSome ∧ (jget m "options").isSome then
          some (.obj (applyQDefaults m (toString idx)))
        else none
      | _ => none

/-- Strategy 2 of `_extract_questions_from_broken_json` (used only when
strategy 1 found nothing): run the fallback pattern over the text and
process each match, numbering matches from 1. -/
def qFallback (cs : List Char) : List (Nat × JVal) :=
  (findQPatF cs.length cs 0).enum.filterMap (fun p =>
    (qFallbackOne ((cs.drop p.2.1).take p.2.2) (p.1 + 1)).map
      (fun v => (p.2.1, v)))

/-- `_extract_questions_from_broken_json`, instrumented with the text
offset at which each recovered record starts. -/
def extractQuestionsInstr (cs : List Char) : List (Nat × JVal) :=
  let s1 := extractQObjsF cs.length cs 0 0
  if s1.isEmpty then qFallback cs else s1

/-- `AIService._extract_questions_from_broken_json` on a character list. -/
def extractQuestionsL (cs : List Char) : List JVal :=
  (extractQuestionsInstr cs).map (·.2)

/-- `AIService._extract_questions_from_broken_json`. -/
def extractQuestionsFromBrokenJson (s : String) : List JVal :=
  extractQuestionsL s.toList

/-- Match the error pattern `\{"question"[^}]*\}` at the current
position, returning the unconsumed rest. -/
def matchErrPat (cs : List Char) : Option (List Char) := do
  let r ← eatLit ['{', '"', 'q', 'u', 'e', 's', 't', 'i', 'o', 'n', '"'] cs
  match r.dropWhile (fun c => c != '}') with
  | '}' :: rest2 => some rest2
  | _ => none

/-- `AIService._extract_errors_from_broken_json`: `re.finditer` of the
error pattern; each match that parses as JSON is appended unchanged,
parse failures are skipped. -/
def extractErrF : Nat → List Char → List JVal
  | 0, _ => []
  | _, [] => []
  | fuel + 1, c :: rest =>
    match matchErrPat (c :: rest) with
    | some r =>
      match jparseL ((c :: rest).take ((c :: rest).length - r.length)) with
      | some v => v :: extractErrF fuel r
      | none => extractErrF fuel r
    | none => extractErrF fuel rest

/-- `AIService._extract_errors_from_broken_json` on a character list. -/
def extractErrAux (cs : List Char) : List JVal :=
  extractErrF cs.length cs

/-- `AIService._extract_errors_from_broken_json` on a string. -/
def extractErrorsFromBrokenJson (s : String) : List JVal :=
  extractErrAux s.toList

/-! ## `AIService.parse_quiz_questions` (the Tiered Extractor, quiz schema)

The regexes of the source are modelled as deterministic scanners; each is
deterministic because no literal the pattern requires can occur inside the
character class that precedes it (e.g. a greedy `\s*` never has to give
characters back to a following non-whitespace literal). -/

/-- First index at or after `i` where `pat` is a literal prefix of the
remaining text (the remaining text is passed alongside its offset). -/
def findLitFrom (pat : List Char) : List Char → Nat → Option Nat
  | [], i => if pat.isEmpty then some i else none
  | c :: rest, i =>
    if (eatLit pat (c :: rest)).isSome then some i
    else findLitFrom pat rest (i + 1)

/-- Body of the lazy group `\[.*?\]` of the code-fence pattern: extend the
group one character at a time until a `]` is reached whose remainder
matches `\s*` followed by three backticks. -/
def fenceBody (acc : List Char) : List Char → Option (List Char)
  | [] => none
  | c :: rest =>
    if c = ']' ∧ (eatLit ['`', '`', '`'] (eatWs rest)).isSome then
      some acc.reverse
    else fenceBody (c :: acc) rest

/-- Match the strategy-1 code-fence pattern (three backticks, optional
`json` tag, `\s*`, the lazily captured `\[.*?\]`, `\s*`, three backticks)
at the current position, returning the captured array text. -/
def matchFenceAt (cs : List Char) : Option (List Char) := do
  let r ← eatLit ['`', '`', '`'] cs
  let r := match eatLit ['j', 's', 'o', 'n'] r with
    | some r2 => r2
    | none => r
  match eatWs r with
  | '[' :: rest => (fenceBody [] rest).map (fun body => '[' :: body ++ [']'])
  | _ => none

/-- `re.search` for the code-fence pattern: leftmost match. -/
def findFence : List Char → Option (List Char)
  | [] => none
  | c :: rest =>
    match matchFenceAt (c :: rest) with
    | some g => some g
    | none => findFence rest

/-- The strategy-2 loop: at every `[` position run the string-blind
bracket scan; for spans longer than 100 characters try `json.loads`, then
repair-and-parse, then the per-record salvage (on the unrepaired span);
keep the candidate list with strictly more elements than the best so far
(so ties keep the earlier candidate). -/
def strat2Aux : List Char → List JVal → List JVal
  | [], best => best
  | c :: rest, best =>
    if c = '[' then
      let best2 :=
        match scanArrayLen (c :: rest) with
        | some n =>
          let jsonStr := (c :: rest).take n
          if jsonStr.length > 100 then
            match jparseL jsonStr with
            | some (.arr qs) => if qs.length > best.length then qs else best
            | some _ => best
            | none =>
              match jparseL (fixJson jsonStr) with
              | some (.arr qs) => if qs.length > best.length then qs else best
              | some _ => best
              | none =>
                let ex := extractQuestionsL jsonStr
                if ex.length > best.length then ex else best
          else best
        | none => best
      strat2Aux rest best2
    else strat2Aux rest best

/-- Index of the last `]` in the text. -/
def lastCloseIdx (cs : List Char) : Option Nat :=
  ((cs.enum.filter (fun p => p.2 = ']')).getLast?).map (·.1)

/-- `re.search(r"(\[[\s\S]{100,}\])", s)`: from the first `[`, a greedy
match reaching the last `]` of the whole text, provided at least 100
characters lie between them. -/
def strat2bSpan (cs : List Char) : Option (List Char) :=
  match cs.findIdx? (fun c => c = '['), lastCloseIdx cs with
  | some p, some e =>
    if p + 101 ≤ e then some ((cs.drop p).take (e - p + 1)) else none
  | _, _ => none

/-- The fallback block after strategy 2: parse the `{100,}` span, then
repair and re-parse, then salvage from the repaired span, then salvage
from the whole response; `none` means fall through to strategy 3. -/
def strat2b (cs : List Char) : Option (List JVal) :=
  match strat2bSpan cs with
  | none => none
  | some span =>
    match jparseL span with
    | some (.arr qs) => if qs.length > 0 then some qs else none
    | some _ => none
    | none =>
      let fixed := fixJson span
      match jparseL fixed with
      | some (.arr qs) => if qs.length > 0 then some qs else none
      | some _ => none
      | none =>
        let ex := extractQuestionsL fixed
        if !ex.isEmpty then some ex
        else
          let ex2 := extractQuestionsL cs
          if !ex2.isEmpty then some ex2 else none

/-- `re.search(r'(\{[\s\S]*?"questions"[\s\S]*?\})', s)`: first `{`, then
the first `"questions"` after it, then the first `}` after that (laziness
makes each step take the earliest position; failure at the earliest
occurrences implies failure everywhere). -/
def strat3Span (cs : List Char) : Option (List Char) :=
  match cs.findIdx? (fun c => c = '{') with
  | none => none
  | some p =>
    match findLitFrom
        ['"', 'q', 'u', 'e', 's', 't', 'i', 'o', 'n', 's', '"']
        (cs.drop (p + 1)) (p + 1) with
    | none => none
    | some q =>
      match findLitFrom ['}'] (cs.drop (q + 11)) (q + 11) with
      | none => none
      | some b => some ((cs.drop p).take (b - p + 1))

/-- Strategy 3: parse the `questions`-object span and read its
`questions` key when it is a non-empty list. -/
def strat3 (cs : List Char) : Option (List JVal) :=
  match strat3Span cs with
  | none => none
  | some span =>
    match jparseL span with
    | some (.obj m) =>
      match jget m "questions" with
      | some (.arr qs) => if qs.length > 0 then some qs else none
      | _ => none
    | _ => none

/-- Case-insensitive literal consumption (pattern given in lowercase). -/
def eatLitCI : List Char → List Char → Option (List Char)
  | [], cs => some cs
  | p :: ps, c :: cs => if c.toLower = p then eatLitCI ps cs else none
  | _ :: _, [] => none

/-- Match `(?:Question|Q)\s*\d+` (case-insensitive) at the current
position: the `Question` alternative is tried first, falling back to `Q`
exactly as the regex engine backtracks. -/
def matchQNum (cs : List Char) : Option (List Char) :=
  let tryDigits (r : List Char) : Option (List Char) :=
    let r2 := eatWs r
    let ds := r2.takeWhile Char.isDigit
    if ds.isEmpty then none else some (r2.drop ds.length)
  match eatLitCI ['q', 'u', 'e', 's', 't', 'i', 'o', 'n'] cs with
  | some r =>
    match tryDigits r with
    | some r2 => some r2
    | none => (eatLitCI ['q'] cs).bind tryDigits
  | none => (eatLitCI ['q'] cs).bind tryDigits

/-- A character of the class `[:\s]`. -/
def isColonWs (c : Char) : Bool := c = ':' || isPyWs c

/-- End of the lazy group `(.+?)` before the look-ahead
`(?=(?:Question|Q)\s*\d+|$)`: the earliest offset (at least 1) at which
the look-ahead matches, or the end of the text. -/
def groupEndOffset : List Char → Nat → Nat
  | [], g => g
  | c :: rest, g =>
    if (matchQNum (c :: rest)).isSome then g
    else groupEndOffset rest (g + 1)

/-- Match the strategy-5 pattern
`(?:Question|Q)\s*\d+[:\s]+(.+?)(?=(?:Question|Q)\s*\d+|$)` at the
current position, returning the captured group and the match length. -/
def matchQuestionAt (cs : List Char) : Option (List Char × Nat) := do
  let r1 ← matchQNum cs
  let k := (r1.takeWhile isColonWs).length
  let k1 := if (r1.drop k).isEmpty then k - 1 else k
  if k1 = 0 then none
  else
    let rem := r1.drop k1
    match rem with
    | [] => none
    | c :: rest =>
      let g := groupEndOffset rest 1
      some (rem.take g, (cs.length - r1.length) + k1 + g)

/-- `AIService._extract_questions_from_text`: `re.finditer` of the
strategy-5 pattern; each match whose stripped capture exceeds 20
characters is turned into a placeholder record (`id` is the 1-based
index of the match among all matches). -/
def extractQTextF : Nat → List Char → Nat → List JVal
  | 0, _, _ => []
  | _, [], _ => []
  | fuel + 1, c :: rest, n =>
    match matchQuestionAt (c :: rest) with
    | some (grp, len) =>
      let kept :=
        if (pyStrip grp).length > 20 then
          [JVal.obj
            [("id", .str (toString n)),
             ("text", .str (String.mk ((pyStrip grp).take 200))),
             ("options", .arr
               [.obj [("id", .str "a"), ("text", .str "Option A")],
                .obj [("id", .str "b"), ("text", .str "Option B")],
                .obj [("id", .str "c"), ("text", .str "Option C")],
                .obj [("id", .str "d"), ("text", .str "Option D")]]),
             ("correctAnswer", .str "a"),
             ("explanation", .str "Generated from AI response"),
             ("topic", .str "General")]]
        else []
      kept ++ extractQTextF fuel ((c :: rest).drop len) (n + 1)
    | none => extractQTextF fuel rest n

/-- `AIService._extract_questions_from_text` finditer loop. -/
def extractQTextAux (cs : List Char) (n : Nat) : List JVal :=
  extractQTextF cs.length cs n

/-- `AIService._extract_questions_from_text`. -/
def extractQuestionsFromText (s : String) : List JVal :=
  extractQTextAux s.toList 1

/-- `AIService.parse_quiz_questions`: the tiers in source order.  The body
raises nothing (every fallible operation is wrapped in the source), so the
entry point's `try/except` never fires; it is modelled in
`parseQuizQuestionsE` below. -/
def parseQuizQuestionsL (cs : List Char) : List JVal :=
  let s1 : Option (List JVal) :=
    match findFence cs with
    | some g =>
      match jparseL g with
      | some (.arr qs) => if qs.length > 0 then some qs else none
      | _ => none
    | none => none
  match s1 with
  | some qs => qs
  | none =>
    let best := strat2Aux cs []
    if !best.isEmpty then best
    else
      match strat2b cs with
      | some qs => qs
      | none =>
        match strat3 cs with
        | some qs => qs
        | none =>
          let s4 := extractQuestionsL cs
          if !s4.isEmpty then s4
          else extractQTextAux cs 1

/-- `AIService.parse_quiz_questions` on a string. -/
def parseQuizQuestions (s : String) : List JVal :=
  parseQuizQuestionsL s.toList

/-- The quiz entry point viewed through its `try/except`: the body is a
total function (every fallible operation in the source is handled
locally), so the handler that would return `[]` is dead and the result is
always `ok`. -/
def parseQuizQuestionsE (s : String) : Except PyErr (List JVal) :=
  .ok (parseQuizQuestionsL s.toList)

/-! ## `AIService.parse_midterm_analysis` (the Tiered Extractor, error schema) -/

/-- Python `str()` of a parsed JSON value.  Lists and dicts are rendered
as placeholders: the rendering is used only for membership tests against
the recognized correctness keywords, which a Python list/dict rendering
(always starting with a bracket or brace) never equals either. -/
def pyStr : JVal → String
  | .null => "None"
  | .bool true => "True"
  | .bool false => "False"
  | .num n => toString n
  | .str s => s
  | .arr _ => "[...]"
  | .obj _ => "\x7b...\x7d"

/-- `str(correctness).lower().strip()` matched against the recognized
keyword groups (`ai_service.py` lines 285–299); `none` models the
`else` branch that discards an unrecognized value. -/
def normalizeCorrectnessStr (c : JVal) : Option String :=
  let s := String.mk (pyStrip (pyLower (pyStr c).toList))
  if s = "correct" ∨ s = "right" ∨ s = "true" then some "correct"
  else if s = "incorrect" ∨ s = "wrong" ∨ s = "false" then some "incorrect"
  else if s = "partially_correct" ∨ s = "partially correct" ∨
      s = "partial" ∨ s = "partially" then some "partially_correct"
  else none

/-- The integer value Python uses when comparing a parsed JSON value with
an `int` (`bool` counts as 0/1); `none` means the comparison raises
`TypeError`. -/
def pyAsInt : JVal → Option Int
  | .num n => some n
  | .bool b => some (if b then 1 else 0)
  | _ => none

/-- Python `v > k` for an integer literal `k`. -/
def pyGtInt (v : JVal) (k : Int) : Except PyErr Bool :=
  match pyAsInt v with
  | some n => .ok (k < n)
  | none => .error .typeError

/-- Python `a >= b` between two parsed values. -/
def pyGeVals (a b : JVal) : Except PyErr Bool :=
  match pyAsInt a, pyAsInt b with
  | some x, some y => .ok (y ≤ x)
  | _, _ => .error .typeError

/-- The marks-based inference of lines 303–318, entered when both marks
are non-`None`: with `totalMarks > 0`, full marks give `correct`,
positive marks `partially_correct`, otherwise `incorrect` (also when
`totalMarks ≤ 0`, via the `elif`); non-numeric marks raise `TypeError`
at the comparisons. -/
def deriveFromMarks (mr tm : JVal) : Except PyErr String :=
  match pyGtInt tm 0 with
  | .error e => .error e
  | .ok pos =>
    if pos then
      match pyGeVals mr tm with
      | .error e => .error e
      | .ok ge =>
        if ge then .ok "correct"
        else
          match pyGtInt mr 0 with
          | .error e => .error e
          | .ok gt =>
            if gt then .ok "partially_correct" else .ok "incorrect"
    else .ok "incorrect"

/-- The correctness derivation of `parse_midterm_analysis` (lines
269–318) for one raw error object: resolve the marks via the truthiness
`or`-chains, normalize the correctness string, discard an unrecognized
value, infer from marks when both are non-`None` and `totalMarks > 0`,
and default to `"incorrect"`. -/
def deriveCorrectness (m : List (String × JVal)) : Except PyErr String :=
  let mr := pyOr (jgetD m "marksReceived" .null) (jgetD m "marks_received" .null)
  let tm := pyOr (jgetD m "totalMarks" .null) (jgetD m "total_marks" .null)
  let c := pyOr (pyOr (jgetD m "correctness" .null) (jgetD m "status" .null))
    (jgetD m "correctness_status" .null)
  let cNorm : Option String :=
    if truthy c then normalizeCorrectnessStr c else none
  match cNorm with
  | some s => .ok s
  | none =>
    if mr ≠ JVal.null ∧ tm ≠ JVal.null then deriveFromMarks mr tm
    else .ok "incorrect"

/-- The per-record normalization of `parse_midterm_analysis` (lines
268–334): key aliases, defaults, and the derived correctness; a non-dict
record raises `AttributeError` at its first `.get`. -/
def normalizeError (v : JVal) : Except PyErr JVal :=
  match v with
  | .obj m => do
    let mr := pyOr (jgetD m "marksReceived" .null) (jgetD m "marks_received" .null)
    let tm := pyOr (jgetD m "totalMarks" .null) (jgetD m "total_marks" .null)
    let corr ← deriveCorrectness m
    .ok (.obj
      [("question", jgetD m "question" (.num 0)),
       ("yourAnswer",
         match jget m "yourAnswer" with
         | some v2 => v2
         | none => jgetD m "your_answer" (.str "")),
       ("correctAnswer",
         match jget m "correctAnswer" with
         | some v2 => v2
         | none => jgetD m "correct_answer" (.str "")),
       ("topic", jgetD m "topic" (.str "Unknown")),
       ("feedback", jgetD m "feedback" (.str "")),
       ("marksReceived", mr),
       ("totalMarks", tm),
       ("correctness", .str corr)])
  | _ => .error .attributeError

/-- Normalize each raw error in order, propagating the first raised
exception. -/
def normalizeErrors : List JVal → Except PyErr (List JVal)
  | [] => .ok []
  | e :: rest => do
    let n ← normalizeError e
    let ns ← normalizeErrors rest
    .ok (n :: ns)

/-- `errors = …` dispatch on the parsed data (lines 257–264), together
with the effect of `for error in errors` when `errors` is not a list: a
string or dict iterates its characters/keys (each a string, raising
`AttributeError` at `.get` unless empty), anything else raises
`TypeError`. -/
def errorsFromData (data : JVal) : Except PyErr (List JVal) :=
  match data with
  | .obj m =>
    if (jget m "errors").isSome then
      match jgetD m "errors" .null with
      | .arr l => .ok l
      | .str s => if s = "" then .ok [] else .error .attributeError
      | .obj m2 => if m2.isEmpty then .ok [] else .error .attributeError
      | _ => .error .typeError
    else .ok [data]
  | .arr l => .ok l
  | _ => .ok []

/-- Strategy 1 span for errors, `re.search(r"\[.*?\]", s, re.DOTALL)`:
first `[`, then the first `]` after it. -/
def errSpan1 (cs : List Char) : Option (List Char) :=
  match cs.findIdx? (fun c => c = '[') with
  | none => none
  | some p =>
    match findLitFrom [']'] (cs.drop (p + 1)) (p + 1) with
    | none => none
    | some e => some ((cs.drop p).take (e - p + 1))

/-- Strategy 2 span, `re.search(r'\{.*?"errors".*?\}', s, re.DOTALL)`:
first `{`, first `"errors"` after it, first `}` after that. -/
def errSpan2 (cs : List Char) : Option (List Char) :=
  match cs.findIdx? (fun c => c = '{') with
  | none => none
  | some p =>
    match findLitFrom ['"', 'e', 'r', 'r', 'o', 'r', 's', '"']
        (cs.drop (p + 1)) (p + 1) with
    | none => none
    | some q =>
      match findLitFrom ['}'] (cs.drop (q + 8)) (q + 8) with
      | none => none
      | some b => some ((cs.drop p).take (b - p + 1))

/-- Strategy 3 span, `re.search(r"\{.*?\}|\[.*?\]", s, re.DOTALL)`:
leftmost position opening either a lazily closed object or array. -/
def errSpan3Aux (full : List Char) : List Char → Nat → Option (List Char)
  | [], _ => none
  | c :: rest, p =>
    if c = '{' then
      match findLitFrom ['}'] rest (p + 1) with
      | some e => some ((full.drop p).take (e - p + 1))
      | none => errSpan3Aux full rest (p + 1)
    else if c = '[' then
      match findLitFrom [']'] rest (p + 1) with
      | some e => some ((full.drop p).take (e - p + 1))
      | none => errSpan3Aux full rest (p + 1)
    else errSpan3Aux full rest (p + 1)

/-- Strategy 3 span entry point. -/
def errSpan3 (cs : List Char) : Option (List Char) :=
  errSpan3Aux cs cs 0

/-- First case-insensitive occurrence of `pat`: the text before it and
the suffix starting at it. -/
def splitBeforeCI (pat : List Char) : List Char → Option (List Char × List Char)
  | [] => none
  | c :: rest =>
    if (eatLitCI pat (c :: rest)).isSome then some ([], c :: rest)
    else (splitBeforeCI pat rest).map (fun p => (c :: p.1, p.2))

/-- Consume `[:\s]+pat-free lazy group` up to the first case-insensitive
occurrence of `pat`, consuming the occurrence: returns the group and the
rest.  Models `[:\s]+(.*?)pat` with each literal taken at its earliest
occurrence. -/
def eatSepGroupTo (pat : List Char) (cs : List Char) :
    Option (List Char × List Char) :=
  let k := (cs.takeWhile isColonWs).length
  if k = 0 then none
  else
    match splitBeforeCI pat (cs.drop k) with
    | none => none
    | some (grp, suf) => some (grp, (eatLitCI pat suf).getD suf)

/-- Match the structured-text error pattern
`question[:\s]+(\d+).*?yourAnswer[:\s]+(.*?)correctAnswer[:\s]+(.*?)topic[:\s]+(.*?)feedback[:\s]+(.*?)(?=question|$)`
(case-insensitive, DOTALL) at the current position, taking each literal
at its earliest occurrence (the deterministic reading of the lazy
quantifiers; exact whenever each occurrence is followed by its separator,
which holds for all inputs considered here).  Returns the built record
and the match length. -/
def matchErrTextAt (cs : List Char) : Option (JVal × Nat) := do
  let r1 ← eatLitCI ['q', 'u', 'e', 's', 't', 'i', 'o', 'n'] cs
  let k := (r1.takeWhile isColonWs).length
  if k = 0 then none
  else
    let r2 := r1.drop k
    let ds := r2.takeWhile Char.isDigit
    if ds.isEmpty then none
    else
      let r3 := r2.drop ds.length
      let (_, r4) ← (splitBeforeCI
        ['y', 'o', 'u', 'r', 'a', 'n', 's', 'w', 'e', 'r'] r3).map
        (fun p => (p.1, (eatLitCI ['y', 'o', 'u', 'r', 'a', 'n', 's', 'w', 'e', 'r'] p.2).getD p.2))
      let (g2, r5) ← eatSepGroupTo
        ['c', 'o', 'r', 'r', 'e', 'c', 't', 'a', 'n', 's', 'w', 'e', 'r'] r4
      let (g3, r6) ← eatSepGroupTo ['t', 'o', 'p', 'i', 'c'] r5
      let (g4, r7) ← eatSepGroupTo ['f', 'e', 'e', 'd', 'b', 'a', 'c', 'k'] r6
      let k5 := (r7.takeWhile isColonWs).length
      if k5 = 0 then none
      else
        let r8 := r7.drop k5
        let (g5, r9) :=
          match splitBeforeCI ['q', 'u', 'e', 's', 't', 'i', 'o', 'n'] r8 with
          | some p => p
          | none => (r8, [])
        some (JVal.obj
          [("question", .num (digitsToNat ds : Int)),
           ("yourAnswer", .str (String.mk (pyStrip g2))),
           ("correctAnswer", .str (String.mk (pyStrip g3))),
           ("topic", .str (String.mk (pyStrip g4))),
           ("feedback", .str (String.mk (pyStrip g5))),
           ("marksReceived", .null),
           ("totalMarks", .null),
           ("correctness", .str "incorrect")],
          cs.length - r9.length)

/-- `re.finditer` of the structured-text error pattern. -/
def extractErrTextF : Nat → List Char → List JVal
  | 0, _ => []
  | _, [] => []
  | fuel + 1, c :: rest =>
    match matchErrTextAt (c :: rest) with
    | some (v, len) =>
      v :: extractErrTextF fuel ((c :: rest).drop len)
    | none => extractErrTextF fuel rest

/-- `re.finditer` of the structured-text error pattern, entry point. -/
def extractErrTextAux (cs : List Char) : List JVal :=
  extractErrTextF cs.length cs

/-- The body of `AIService.parse_midterm_analysis`: pick the first span
the three strategies find; repair and parse it, normalizing the records
(returned when non-empty); on a parse failure, salvage individual error
objects from the repaired span (the source rebinds `json_str` to the
repaired text before parsing); otherwise fall back to the structured-text
extractor.  Exceptions raised during normalization propagate to the
entry point's handler. -/
def parseMidtermBody (cs : List Char) : Except PyErr (List JVal) :=
  let span :=
    match errSpan1 cs with
    | some s => some s
    | none =>
      match errSpan2 cs with
      | some s => some s
      | none => errSpan3 cs
  match span with
  | some js =>
    let fixed := fixJson js
    match jparseL fixed with
    | some data => do
      let errs ← errorsFromData data
      let normalized ← normalizeErrors errs
      if !normalized.isEmpty then .ok normalized
      else .ok (extractErrTextAux cs)
    | none =>
      let ex := extractErrAux fixed
      if !ex.isEmpty then .ok ex
      else .ok (extractErrTextAux cs)
  | none => .ok (extractErrTextAux cs)

/-- `AIService.parse_midterm_analysis`: the body under its `try/except`,
whose handler returns `[]`. -/
def parseMidtermAnalysis (s : String) : List JVal :=
  match parseMidtermBody s.toList with
  | .ok l => l
  | .error _ => []

/-- The midterm entry point with the `try/except` made explicit: the
handler maps every raised exception to `ok []`. -/
def parseMidtermAnalysisE (s : String) : Except PyErr (List JVal) :=
  match parseMidtermBody s.toList with
  | .ok l => .ok l
  | .error _ => .ok []

/-! ## Quiz record validation (`main.py`, `generate_quiz_from_errors`,
lines 607–684) -/

/-- Keys of a Python dict in insertion order: a dict built from the pair
list keeps each key at its first occurrence's position (later duplicates
only overwrite the value). -/
def jkeys : List (String × JVal) → List String
  | [] => []
  | (k, _) :: rest => k :: (jkeys rest).filter (fun k2 => k2 ≠ k)

/-- The canonical option id for position `k`:
`chr(97 + k)` for `k < 26`, else `str(k)`. -/
def canonOptId (k : Nat) : String :=
  if k < 26 then String.mk [Char.ofNat (97 + k)] else toString k

/-- One iteration of the option-normalization loop (lines 629–657):
a dict option with a `text` or `id` key becomes `{id, text}` with the
truthiness-`or` fallbacks of the source; a string option gets the next
canonical id; anything else is dropped.  `k` is `len(valid_options)`. -/
def mkValidOption (opt : JVal) (k : Nat) : Option JVal :=
  match opt with
  | .obj om =>
    if (jget om "text").isSome ∨ (jget om "id").isSome then
      let oid := pyOr (jgetD om "id" .null) (.str (canonOptId k))
      let otext := pyOr (pyOr (jgetD om "text" .null) (jgetD om "id" .null))
        (.str ("Option " ++ (canonOptId k).toUpper))
      some (.obj [("id", oid), ("text", otext)])
    else none
  | .str s => some (.obj [("id", .str (canonOptId k)), ("text", .str s)])
  | _ => none

/-- Fold of `mkValidOption` over the option list. -/
def buildValidOptions : List JVal → Nat → List JVal
  | [], _ => []
  | o :: rest, k =>
    match mkValidOption o k with
    | some v => v :: buildValidOptions rest (k + 1)
    | none => buildValidOptions rest k

/-- The iterable Python sees in `for opt in options` (and its `len`):
list elements, string characters, or dict keys; numbers and booleans
raise `TypeError` at `len`. -/
def optionsElems : JVal → Except PyErr (List JVal)
  | .arr l => .ok l
  | .str s => .ok (s.toList.map (fun c => .str (String.mk [c])))
  | .obj m => .ok ((jkeys m).map .str)
  | _ => .error .typeError

/-- One iteration of the validation loop of `generate_quiz_from_errors`
(lines 609–676): resolve the question text (skipping falsy, raising on a
truthy non-string at `.strip()`), require at least 2 options before and
after normalization, and build the normalized record.  `keptCount` is
`len(validated_questions)` (used by the `id` default). -/
def processQuestion (q : JVal) (keptCount : Nat) (topicsList : List String) :
    Except PyErr (Option JVal) :=
  match q with
  | .obj m =>
    let qt := pyOr (pyOr (jgetD m "text" .null) (jgetD m "question" .null))
      (.str "")
    if !truthy qt then .ok none
    else
      match qt with
      | .str s =>
        if (pyStrip s.toList).length < 10 then .ok none
        else
          let options := jgetD m "options" (.arr [])
          if !truthy options then .ok none
          else
            match optionsElems options with
            | .error e => .error e
            | .ok elems =>
            if elems.length < 2 then .ok none
            else
              let validOpts := buildValidOptions elems 0
              if validOpts.length < 2 then .ok none
              else
                let firstOptId :=
                  match validOpts with
                  | .obj om :: _ => jgetD om "id" (.str "a")
                  | _ => .str "a"
                .ok (some (.obj
                  [("id", pyOr (jgetD m "id" .null)
                     (.str (toString (keptCount + 1)))),
                   ("text", .str (String.mk (pyStrip s.toList))),
                   ("options", .arr validOpts),
                   ("correctAnswer",
                     pyOr (pyOr (jgetD m "correctAnswer" .null)
                       (jgetD m "correct_answer" .null)) firstOptId),
                   ("explanation", pyOr (jgetD m "explanation" .null) (.str "")),
                   ("topic",
                     match topicsList with
                     | t :: _ => pyOr (jgetD m "topic" .null) (.str t)
                     | [] => .str "General")]))
      | _ => .error .attributeError
  | _ => .error .attributeError

/-- The validation loop over all parsed questions, threading the count of
records kept so far. -/
def validateQuestionsAux (topicsList : List String) :
    List JVal → Nat → Except PyErr (List JVal)
  | [], _ => .ok []
  | q :: rest, kept =>
    match processQuestion q kept topicsList with
    | .error e => .error e
    | .ok none => validateQuestionsAux topicsList rest kept
    | .ok (some v) =>
      match validateQuestionsAux topicsList rest (kept + 1) with
      | .error e => .error e
      | .ok vs => .ok (v :: vs)

/-- The validate-and-clean pass of `generate_quiz_from_errors`. -/
def validateQuestions (qs : List JVal) (topicsList : List String) :
    Except PyErr (List JVal) :=
  validateQuestionsAux topicsList qs 0

/-! ## `randomize_question_options` (`main.py` lines 293–340)

The record shape the randomizer manipulates (normalized quiz records:
string ids and texts).  `random.shuffle` is modelled by quantifying over
the permuted list. -/

/-- An option as manipulated by the randomizer. -/
structure QOpt where
  id : String
  text : String
  deriving DecidableEq, Repr

/-- A quiz record as manipulated by the randomizer. -/
structure QuizQ where
  qid : String
  text : String
  options : List QOpt
  correctAnswer : String
  explanation : String
  topic : String
  deriving DecidableEq, Repr

/-- The canonical id pool `["a", "b", "c", "d", "e", "f"]` of the
randomizer (truncated with `[:len(shuffled_options)]`). -/
def randOptionIds : List String := ["a", "b", "c", "d", "e", "f"]

/-- `opt["id"] = option_ids[i]` over the shuffled list. -/
def reassignIds (opts : List QOpt) (ids : List String) : List QOpt :=
  List.zipWith (fun o i => { o with id := i }) opts ids

/-- The body of `randomize_question_options` for one record: with more
than one option, locate the first option whose id equals the record's
correct-answer id (pass the record through unchanged when there is
none); locate it again in the shuffled list; reassign the canonical ids
and rebind the correct answer.  With more than 6 options the id
reassignment loop indexes past the 6-element pool and raises
`IndexError`. -/
def randomizeOne (q : QuizQ) (shuffled : List QOpt) : Except PyErr QuizQ :=
  if q.options.length > 1 then
    match q.options.find? (fun o => o.id = q.correctAnswer) with
    | none => .ok q
    | some _ =>
      match shuffled.findIdx? (fun o => o.id = q.correctAnswer) with
      | none => .ok q
      | some idx =>
        if shuffled.length ≤ 6 then
          let ids := randOptionIds.take shuffled.length
          .ok { q with options := reassignIds shuffled ids,
                       correctAnswer := ids.getD idx "a" }
        else .error .indexError
  else .ok q

/-- `randomize_question_options` over a record list; the `i`-th record is
shuffled to `sh i` (the oracle modelling `random.shuffle`). -/
def randomizeQuestionsAux (sh : Nat → List QOpt) :
    List QuizQ → Nat → Except PyErr (List QuizQ)
  | [], _ => .ok []
  | q :: qs, i => do
    let q2 ← randomizeOne q (sh i)
    let rest ← randomizeQuestionsAux sh qs (i + 1)
    .ok (q2 :: rest)

/-- `randomize_question_options`. -/
def randomizeQuestionOptions (qs : List QuizQ) (sh : Nat → List QOpt) :
    Except PyErr (List QuizQ) :=
  randomizeQuestionsAux sh qs 0

/-- The option text the record's `correctAnswer` currently refers to
(first option with a matching id). -/
def refText (q : QuizQ) : Option String :=
  (q.options.find? (fun o => o.id = q.correctAnswer)).map (·.text)

/-! ## Accessors and derived views used by the theorem statements -/

/-- Field of a parsed object (`None` for a missing key or non-object). -/
def vField (v : JVal) (k : String) : JVal :=
  match v with
  | .obj m => jgetD m k .null
  | _ => .null

/-- The options list of a validated record. -/
def vOptions (v : JVal) : List JVal :=
  match vField v "options" with
  | .arr l => l
  | _ => []

/-- The ids of a validated record's options. -/
def vOptionIds (v : JVal) : List JVal :=
  (vOptions v).map (fun o => vField o "id")

/-- The id of a validated record's first option (`None` when there is
none). -/
def firstOptionId (v : JVal) : JVal :=
  match vOptions v with
  | o :: _ => vField o "id"
  | [] => .null

/-- The question text a raw record resolves to in the validator,
stripped — the key under which validation preserves order. -/
def rawTextKey : JVal → JVal
  | .obj m =>
    let qt := pyOr (pyOr (jgetD m "text" .null) (jgetD m "question" .null))
      (.str "")
    match qt with
    | .str s => .str (String.mk (pyStrip s.toList))
    | _ => .null
  | _ => .null

/-- The candidate record list strategy 2 derives from one `[` suffix
(`none` when the position opens no long-enough balanced span): the parsed
list, else the repaired-and-parsed list, else the salvage result; a
successful parse of a non-list yields the empty candidate. -/
def strat2CandidateOf (cs : List Char) : Option (List JVal) :=
  match cs with
  | [] => none
  | c :: rest =>
    if c = '[' then
      match scanArrayLen (c :: rest) with
      | some n =>
        let jsonStr := (c :: rest).take n
        if jsonStr.length > 100 then
          match jparseL jsonStr with
          | some (.arr qs) => some qs
          | some _ => some []
          | none =>
            match jparseL (fixJson jsonStr) with
            | some (.arr qs) => some qs
            | some _ => some []
            | none => some (extractQuestionsL jsonStr)
        else none
      | none => none
    else none

/-- All strategy-2 candidates, in text order. -/
def strat2Candidates : List Char → List (List JVal)
  | [] => []
  | c :: rest =>
    match strat2CandidateOf (c :: rest) with
    | some cand => cand :: strat2Candidates rest
    | none => strat2Candidates rest

/-- The best-so-far update of strategy 2 (`ai_service.py` lines
453–457 and 463–467, 473–474): a candidate replaces the best only with
strictly more elements, so of equally long candidates the earlier one is
kept. -/
def pickLonger (b c : List JVal) : List JVal :=
  if c.length > b.length then c else b

/-- `true` when the text nowhere contains two consecutive slashes (no
line-comment opener). -/
def noDSlash : List Char → Bool
  | c :: d :: rest =>
    if c = '/' ∧ d = '/' then false else noDSlash (d :: rest)
  | _ => true

/-! ## Concrete inputs used by the counterexamples and witnesses -/

/-- C1 raw record: `correctAnswer` is `"z"`, matching no option id. -/
def c1Raw : JVal :=
  .obj [("text", .str "What is two plus two?"),
        ("options", .arr
          [.obj [("id", .str "a"), ("text", .str "3")],
           .obj [("id", .str "b"), ("text", .str "4")]]),
        ("correctAnswer", .str "z")]

/-- The record the validator produces from `c1Raw`. -/
def c1Out : JVal :=
  .obj [("id", .str "1"),
        ("text", .str "What is two plus two?"),
        ("options", .arr
          [.obj [("id", .str "a"), ("text", .str "3")],
           .obj [("id", .str "b"), ("text", .str "4")]]),
        ("correctAnswer", .str "z"),
        ("explanation", .str ""),
        ("topic", .str "TopicX")]

/-- C4, error schema: two target-schema records (topic first), the array
truncated inside the second — the salvage regex finds nothing. -/
def c4ErrRec1 : String :=
  "\x7b\"topic\": \"T\", \"question\": 1, \"yourAnswer\": \"x\", \"correctAnswer\": \"y\", \"feedback\": \"f\"\x7d"

/-- The parsed form of `c4ErrRec1`. -/
def c4ErrRec1Val : JVal :=
  .obj [("topic", .str "T"), ("question", .num 1), ("yourAnswer", .str "x"),
        ("correctAnswer", .str "y"), ("feedback", .str "f")]

/-- The truncated error input built from `c4ErrRec1`. -/
def c4ErrInput : String :=
  "[" ++ c4ErrRec1 ++ ", \x7b\"topic\": \"U\", \"question\": 2, \"yourAnswer\""

/-- C4, quiz schema: a single record whose object never closes. -/
def c4QInput : String :=
  "[\x7b\"id\": \"1\", \"text\": \"What is two plus two?\", \"options\": [\x7b\"id\": \"a\", \"text\": \"3\"\x7d, \x7b\"id\": \"b\", \"text\": \"4\"\x7d], \"correctAnswer"

/-- The record the quiz salvage fabricates from the never-closed object
of `c4QInput` (correct answer, explanation and topic are invented). -/
def c4FabVal : JVal :=
  .obj [("id", .str "1"),
        ("text", .str "What is two plus two?"),
        ("options", .arr
          [.obj [("id", .str "a"), ("text", .str "3")],
           .obj [("id", .str "b"), ("text", .str "4")]]),
        ("correctAnswer", .str "a"),
        ("explanation", .str "Generated question"),
        ("topic", .str "General")]

/-- A complete quiz record (used twice to build a 3-record array). -/
def c4NiceRec (n : String) : String :=
  "\x7b\"id\": \"" ++ n ++ "\", \"text\": \"Question number " ++ n ++
  " text here?\", \"options\": [\x7b\"id\": \"a\", \"text\": \"yes\"\x7d, \x7b\"id\": \"b\", \"text\": \"no\"\x7d], \"correctAnswer\": \"a\", \"explanation\": \"because\", \"topic\": \"T\"\x7d"

/-- The parsed form of `c4NiceRec n`. -/
def c4NiceRecVal (n : String) : JVal :=
  .obj [("id", .str n),
        ("text", .str ("Question number " ++ n ++ " text here?")),
        ("options", .arr
          [.obj [("id", .str "a"), ("text", .str "yes")],
           .obj [("id", .str "b"), ("text", .str "no")]]),
        ("correctAnswer", .str "a"),
        ("explanation", .str "because"),
        ("topic", .str "T")]

/-- A 3-record quiz array truncated inside its third record. -/
def c4NiceTrunc : String :=
  "[" ++ c4NiceRec "1" ++ ", " ++ c4NiceRec "2" ++
  ", \x7b\"id\": \"3\", \"text\": \"Question number 3 text here?\", \"options\": [\x7b\"id\": \"a\", \"text\""

/-- An error record whose first key is `question` (flat, no `}` inside
strings), as the error salvage regex requires. -/
def c4ErrNiceRec1 : String :=
  "\x7b\"question\": 1, \"yourAnswer\": \"x\", \"correctAnswer\": \"y\", \"topic\": \"T\", \"feedback\": \"f\"\x7d"

/-- The parsed form of `c4ErrNiceRec1`. -/
def c4ErrNiceRec1Val : JVal :=
  .obj [("question", .num 1), ("yourAnswer", .str "x"),
        ("correctAnswer", .str "y"), ("topic", .str "T"), ("feedback", .str "f")]

/-- A 2-record error array truncated inside its second record. -/
def c4ErrNice : String :=
  "[" ++ c4ErrNiceRec1 ++ ", \x7b\"question\": 2, \"yourAnswer\""

/-- C5: the first option of the embedded record (45-character text so
that the options array alone spans more than 100 characters). -/
def c5OptA : String :=
  "\x7b\"id\": \"a\", \"text\": \"" ++ String.mk (List.replicate 45 'a') ++ "\"\x7d"

/-- C5: the second option. -/
def c5OptB : String :=
  "\x7b\"id\": \"b\", \"text\": \"" ++ String.mk (List.replicate 45 'b') ++ "\"\x7d"

/-- The parsed form of `c5OptA`. -/
def c5OptAVal : JVal :=
  .obj [("id", .str "a"), ("text", .str (String.mk (List.replicate 45 'a')))]

/-- The parsed form of `c5OptB`. -/
def c5OptBVal : JVal :=
  .obj [("id", .str "b"), ("text", .str (String.mk (List.replicate 45 'b')))]

/-- C5: the question text — long, and containing a `]` that the
string-blind array scan miscounts. -/
def c5QText : String := String.mk (List.replicate 100 'x') ++ "]after"

/-- C5: a valid, complete target-schema record. -/
def c5Rec : String :=
  "\x7b\"id\": \"1\", \"text\": \"" ++ c5QText ++ "\", \"options\": [" ++
  c5OptA ++ ", " ++ c5OptB ++
  "], \"correctAnswer\": \"a\", \"explanation\": \"e\", \"topic\": \"T\"\x7d"

/-- The parsed form of `c5Rec`. -/
def c5RecVal : JVal :=
  .obj [("id", .str "1"),
        ("text", .str c5QText),
        ("options", .arr [c5OptAVal, c5OptBVal]),
        ("correctAnswer", .str "a"),
        ("explanation", .str "e"),
        ("topic", .str "T")]

/-- C5: the valid, complete one-record array. -/
def c5Arr : String := "[" ++ c5Rec ++ "]"

/-- C5: the array embedded in prose. -/
def c5Input : String := "Sure! " ++ c5Arr ++ " Enjoy."

/-- C5 amended: a valid record without brackets inside strings. -/
def c5ProseRec : String :=
  "\x7b\"id\": \"1\", \"text\": \"What is the capital city of France then?\", \"options\": [\x7b\"id\": \"a\", \"text\": \"Paris\"\x7d, \x7b\"id\": \"b\", \"text\": \"Lyon\"\x7d], \"correctAnswer\": \"a\", \"explanation\": \"Paris is the capital\", \"topic\": \"Geo\"\x7d"

/-- The parsed form of `c5ProseRec`. -/
def c5ProseRecVal : JVal :=
  .obj [("id", .str "1"),
        ("text", .str "What is the capital city of France then?"),
        ("options", .arr
          [.obj [("id", .str "a"), ("text", .str "Paris")],
           .obj [("id", .str "b"), ("text", .str "Lyon")]]),
        ("correctAnswer", .str "a"),
        ("explanation", .str "Paris is the capital"),
        ("topic", .str "Geo")]

/-- C5 amended: the array of `c5ProseRec` embedded in backtick-free
prose. -/
def c5Prose : String := "Here you go: [" ++ c5ProseRec ++ "] Bye!"

/-- C7: a normalized-shaped record whose two options share the id `a`. -/
def c7Dup : QuizQ :=
  { qid := "1", text := "t",
    options := [⟨"a", "X"⟩, ⟨"a", "Y"⟩],
    correctAnswer := "a", explanation := "", topic := "T" }

/-- C7: the transposition of `c7Dup`'s options. -/
def c7Shuffled : List QOpt := [⟨"a", "Y"⟩, ⟨"a", "X"⟩]

/-- C8: a record with 7 options whose correct option is locatable. -/
def c8Record : QuizQ :=
  { qid := "1", text := "t",
    options := [⟨"a", "A"⟩, ⟨"b", "B"⟩, ⟨"c", "C"⟩, ⟨"d", "D"⟩,
                ⟨"e", "E"⟩, ⟨"f", "F"⟩, ⟨"g", "G"⟩],
    correctAnswer := "a", explanation := "", topic := "T" }

/-- C9: deliberately garbled non-JSON input. -/
def c9Garbled : String := "%%% not valid at all \x7b\x7b\x7b [[[ ::: \\\\ ,,,"

/-- C1 amended witness: a raw record with no correct-answer key. -/
def c1RawNoCA : List (String × JVal) :=
  [("text", .str "What is two plus two?"),
   ("options", .arr
     [.obj [("id", .str "a"), ("text", .str "3")],
      .obj [("id", .str "b"), ("text", .str "4")]])]

/-- The record the validator produces from `c1RawNoCA`: the correct
answer is rebound to the first option's id. -/
def c1OutNoCA : JVal :=
  .obj [("id", .str "1"),
        ("text", .str "What is two plus two?"),
        ("options", .arr
          [.obj [("id", .str "a"), ("text", .str "3")],
           .obj [("id", .str "b"), ("text", .str "4")]]),
        ("correctAnswer", .str "a"),
        ("explanation", .str ""),
        ("topic", .str "General")]

/-! # Theorems -/

/-- C2 counterexample.  The claim says both balanced scans ignore
delimiters inside quoted strings, and that scanning `{"a": "}"}` yields
an 11-character span.  Both parts fail: the array scan of `["]"]`
(strategy 2 of `parse_quiz_questions`) counts the quoted `]` and stops
after 3 characters instead of the full 5; and the object scan of
`{"a": "}"}` yields the full span, which has 10 characters, not 11. -/
theorem C2_counterexample :
    scanArrayLen "[\"]\"]".toList = some 3 ∧
    "[\"]\"]".toList.length = 5 ∧ (3 : Nat) ≠ 5 ∧
    scanObjectEnd "\x7b\"a\": \"\x7d\"\x7d".toList = some 9 ∧
    "\x7b\"a\": \"\x7d\"\x7d".toList.length = 10 ∧ (9 : Nat) + 1 ≠ 11 := by
  refine ⟨rfl, rfl, by decide, rfl, rfl, by decide⟩

/-- C2 amended: only the salvage-mode object scanner tracks string and
escape state — scanning `{"a": "}"}` from its opening brace yields the
full 10-character span (closing brace at offset 9), and an escaped quote
inside a string does not end it (`{"a": "\"}"}` closes at offset 11).
The array scanner used to find the largest top-level array keeps no
string state and counts brackets inside quoted strings: scanning `["]"]`
yields a premature 3-character span instead of the full 5. -/
theorem C2_amended :
    scanObjectEnd "\x7b\"a\": \"\x7d\"\x7d".toList = some 9 ∧
    "\x7b\"a\": \"\x7d\"\x7d".toList.length = 10 ∧
    scanObjectEnd "\x7b\"a\": \"\\\"\x7d\"\x7d".toList = some 11 ∧
    "\x7b\"a\": \"\\\"\x7d\"\x7d".toList.length = 12 ∧
    scanArrayLen "[\"]\"]".toList = some 3 ∧
    "[\"]\"]".toList.length = 5 := by
  exact ⟨rfl, rfl, rfl, rfl, rfl, rfl⟩

/-- C8: the claim says the randomizer reassigns canonical ids
`a, b, c, d, e, f, …` for any number of options without raising.  The
code truncates the id pool to 6 entries and indexes it with every option
position, so a shuffled record with 7 options (correct option locatable)
raises `IndexError`; `c8Record`, shuffled to itself, is such an input. -/
theorem C8_seven_options_index_error :
    c8Record.options.length = 7 ∧
    (c8Record.options.find? (fun o => o.id = c8Record.correctAnswer)).isSome = true ∧
    randomizeOne c8Record c8Record.options = .error .indexError := by
  exact ⟨rfl, rfl, rfl⟩

/-- C3 counterexample.  The repair pass is not idempotent: on `",,]"` the
first application only removes the second comma (scanning resumes after
the replaced match), and a second application removes the remaining one.
It also changes the meaning of valid JSON: `[", }"]` parses, but the pass
deletes the comma inside its string. -/
theorem C3_counterexample :
    fixJsonS (fixJsonS ",,]") ≠ fixJsonS ",,]" ∧
    fixJsonS ",,]" = ",]" ∧ fixJsonS ",]" = "]" ∧
    jparse "[\", \x7d\"]" = some (.arr [.str ", \x7d"]) ∧
    jparse (fixJsonS "[\", \x7d\"]") = some (.arr [.str " \x7d"]) := by
  refine ⟨by decide, rfl, rfl, rfl, rfl⟩

/-- C1 counterexample.  The claim says an unmatched `correctAnswer` is
rebound to the first surviving option id.  The validator only falls back
to the first option id when both `correctAnswer` and `correct_answer`
are falsy: the surviving record built from `c1Raw` keeps the unmatched
`"z"`, which is the id of no surviving option. -/
theorem C1_counterexample :
    validateQuestions [c1Raw] ["TopicX"] = .ok [c1Out] ∧
    vField c1Out "correctAnswer" = .str "z" ∧
    vOptionIds c1Out = [.str "a", .str "b"] ∧
    (JVal.str "z") ∉ vOptionIds c1Out := by
  refine ⟨rfl, rfl, rfl, by decide⟩

/-- Every option the validator keeps is an `{id, text}` pair. -/
theorem mkValidOption_shape (o : JVal) (k : Nat) (v : JVal)
    (h : mkValidOption o k = some v) :
    ∃ i t, v = .obj [("id", i), ("text", t)] := by
  unfold mkValidOption at h
  split at h
  · split_ifs at h
    exact ⟨_, _, (Option.some.inj h).symm⟩
  · exact ⟨_, _, (Option.some.inj h).symm⟩
  · exact Option.noConfusion h

/-- Every element of the normalized option list is an `{id, text}`
pair. -/
theorem buildValidOptions_shape :
    ∀ (l : List JVal) (k : Nat) (v : JVal), v ∈ buildValidOptions l k →
      ∃ i t, v = .obj [("id", i), ("text", t)] := by
  intro l
  induction l with
  | nil => intro k v hv; simp [buildValidOptions] at hv
  | cons o rest ih =>
    intro k v hv
    rcases hmk : mkValidOption o k with _ | w
    · rw [buildValidOptions, hmk] at hv
      exact ih k v hv
    · rw [buildValidOptions, hmk] at hv
      rcases List.mem_cons.mp hv with hh | hh
      · exact hh ▸ mkValidOption_shape o k w hmk
      · exact ih (k + 1) v hh

/-- Python `a or b` when `a` is falsy. -/
theorem pyOr_of_falsy (a b : JVal) (h : truthy a = false) : pyOr a b = b := by
  simp [pyOr, h]

/-- Python `a or b` when `a` is truthy. -/
theorem pyOr_of_truthy (a b : JVal) (h : truthy a = true) : pyOr a b = a := by
  simp [pyOr, h]

/-- Reading `correctAnswer` off a validated record. -/
theorem vField_ca (i tx o ca e tp : JVal) :
    vField (.obj [("id", i), ("text", tx), ("options", o),
      ("correctAnswer", ca), ("explanation", e), ("topic", tp)])
      "correctAnswer" = ca := by
  simp [vField, jgetD, jget]

/-- Reading the options off a validated record. -/
theorem vOptions_mk (i tx l ca e tp : JVal) (xs : List JVal)
    (hl : l = .arr xs) :
    vOptions (.obj [("id", i), ("text", tx), ("options", l),
      ("correctAnswer", ca), ("explanation", e), ("topic", tp)]) = xs := by
  subst hl
  simp [vOptions, vField, jgetD, jget]

/-- C1, amended: the validator rebinds `correctAnswer` to the first
surviving option's id (which is among the surviving option ids) exactly
when both the raw `correctAnswer` and `correct_answer` values are falsy;
a truthy raw `correctAnswer` is kept verbatim, whether or not it matches
a surviving option id. -/
theorem C1_amended (m : List (String × JVal)) (k : Nat) (ts : List String)
    (out : JVal) (h : processQuestion (.obj m) k ts = .ok (some out)) :
    (truthy (jgetD m "correctAnswer" .null) = false →
     truthy (jgetD m "correct_answer" .null) = false →
      vField out "correctAnswer" = firstOptionId out ∧
      firstOptionId out ∈ vOptionIds out) ∧
    (truthy (jgetD m "correctAnswer" .null) = true →
      vField out "correctAnswer" = jgetD m "correctAnswer" .null) := by
  simp only [processQuestion] at h
  split at h
  · simp at h
  · split at h
    · rename_i s hqt
      split at h
      · simp at h
      · split at h
        · simp at h
        · split at h
          · simp at h
          · rename_i elems helems
            split at h
            · simp at h
            · split at h
              · simp at h
              · rename_i hlen2
                injection h with h1
                injection h1 with h2
                subst h2
                rcases hvo : buildValidOptions elems 0 with _ | ⟨o1, restv⟩
                · rw [hvo] at hlen2
                  simp at hlen2
                · obtain ⟨i, t, ho1⟩ := buildValidOptions_shape elems 0 o1
                    (hvo ▸ List.mem_cons_self o1 restv)
                  rw [ho1]
                  rw [vField_ca]
                  constructor
                  · intro hA hB
                    rw [pyOr_of_falsy _ _ hA, pyOr_of_falsy _ _ hB]
                    constructor
                    · simp [firstOptionId, vOptions, vField, jgetD, jget]
                    · simp [firstOptionId, vOptions, vField, vOptionIds,
                        jgetD, jget]
                  · intro hA
                    rw [pyOr_of_truthy _ _ (by rw [pyOr_of_truthy _ _ hA]; exact hA),
                      pyOr_of_truthy _ _ hA]
    · simp at h

/-- Witness for C1's amended claim: a record with no correct-answer key
is rebound to its first option id `a`. -/
theorem C1_amended_witness :
    (truthy (jgetD c1RawNoCA "correctAnswer" .null) = false ∧
     processQuestion (.obj c1RawNoCA) 0 [] = .ok (some c1OutNoCA)) ∧
    vField c1OutNoCA "correctAnswer" = firstOptionId c1OutNoCA ∧
    firstOptionId c1OutNoCA ∈ vOptionIds c1OutNoCA :=
  ⟨⟨rfl, rfl⟩,
   (C1_amended c1RawNoCA 0 [] c1OutNoCA rfl).1 rfl rfl⟩

/-- C4 counterexample.  The claim says the salvage scanners return
exactly the `N−1` complete records preceding a truncation and never
include a never-closed object.  Both parts fail: the error salvage regex
requires records to start literally with `{"question"`, so on
`c4ErrInput` (first key `topic`, `N = 2`) it returns `[]` instead of the
one preceding complete record; and the quiz salvage regex fallback
completes the never-closed object of `c4QInput` (its balanced scan from
the `{` finds no closing brace) and returns it with a fabricated
`correctAnswer`. -/
theorem C4_counterexample :
    jparse c4ErrRec1 = some c4ErrRec1Val ∧
    extractErrorsFromBrokenJson c4ErrInput = [] ∧
    ([] : List JVal) ≠ [c4ErrRec1Val] ∧
    scanObjectEnd (c4QInput.toList.drop 1) = none ∧
    extractQuestionsFromBrokenJson c4QInput = [c4FabVal] ∧
    ([c4FabVal] : List JVal) ≠ [] := by
  refine ⟨rfl, rfl, by decide, rfl, rfl, by decide⟩

/-- C4 amended: the `N−1` recovery behaviour on truncated arrays whose
records match the salvage patterns — quiz objects recovered by the
string-aware balanced scan, error records that literally start with
`{"question"` and contain no `}` before their end — proved on concrete
instances: the 3-record quiz array truncated inside its third record
yields records 1 and 2 unchanged, and the 2-record error array
truncated inside its second yields record 1.  (The regex fallback of
the quiz scanner can still fabricate a record from a never-closed
object when no complete record is found, and the error regex misses
complete records whose first key is not `question`.) -/
theorem C4_amended_salvage :
    extractQuestionsFromBrokenJson c4NiceTrunc =
      [c4NiceRecVal "1", c4NiceRecVal "2"] ∧
    extractErrorsFromBrokenJson c4ErrNice = [c4ErrNiceRec1Val] := by
  exact ⟨rfl, rfl⟩

/-- C5 counterexample.  The claim says every element of a valid,
complete target-schema array embedded in prose is returned unchanged.
`c5Arr` is such an array (it parses to the single record `c5RecVal`),
but its question text contains a `]`: the string-blind bracket scan cuts
the outer span short (and at under 101 characters the span is dropped),
while the inner options array parses as a 2-element candidate, so the
extractor returns the two option objects instead of the record. -/
theorem C5_counterexample :
    jparse c5Arr = some (.arr [c5RecVal]) ∧
    parseQuizQuestions c5Input = [c5OptAVal, c5OptBVal] ∧
    ([c5OptAVal, c5OptBVal] : List JVal) ≠ [c5RecVal] := by
  refine ⟨rfl, rfl, by decide⟩

/-- Every recognized correctness keyword normalizes to one of the three
classes. -/
theorem normalizeCorrectnessStr_cases (c : JVal) (r : String)
    (h : normalizeCorrectnessStr c = some r) :
    r = "correct" ∨ r = "incorrect" ∨ r = "partially_correct" := by
  simp only [normalizeCorrectnessStr] at h
  split_ifs at h <;> simp_all

/-- The marks-based inference yields only the three classes. -/
theorem deriveFromMarks_cases (mr tm : JVal) (r : String)
    (h : deriveFromMarks mr tm = .ok r) :
    r = "correct" ∨ r = "incorrect" ∨ r = "partially_correct" := by
  unfold deriveFromMarks at h
  rcases hp : pyGtInt tm 0 with e | pos <;> rw [hp] at h
  · exact Except.noConfusion h
  · cases pos
    · simp only [Bool.false_eq_true, if_false] at h
      injection h with h'
      exact Or.inr (Or.inl h'.symm)
    · simp only [if_true] at h
      rcases hge : pyGeVals mr tm with e | ge <;> rw [hge] at h
      · exact Except.noConfusion h
      · cases ge
        · simp only [Bool.false_eq_true, if_false] at h
          rcases hgt : pyGtInt mr 0 with e | gt <;> rw [hgt] at h
          · exact Except.noConfusion h
          · cases gt
            · simp only [Bool.false_eq_true, if_false] at h
              injection h with h'
              exact Or.inr (Or.inl h'.symm)
            · simp only [if_true] at h
              injection h with h'
              exact Or.inr (Or.inr h'.symm)
        · simp only [if_true] at h
          injection h with h'
          exact Or.inl h'.symm

/-- C6: the normalized correctness field — an unrecognized string is
discarded and marks-based inference takes priority; 5/5 marks give
`correct`, 3/5 give `partially_correct`, 0/5 give `incorrect`, absent
marks with no recognized string default to `incorrect`, and whenever the
derivation returns (rather than raising on non-numeric marks) the result
is one of the three classes, never unresolved. -/
theorem C6_correctness_derivation :
    (∀ (m : List (String × JVal)) (r : String), deriveCorrectness m = .ok r →
      r = "correct" ∨ r = "incorrect" ∨ r = "partially_correct") ∧
    deriveCorrectness [("marksReceived", .num 5), ("totalMarks", .num 5)] =
      .ok "correct" ∧
    deriveCorrectness [("marksReceived", .num 3), ("totalMarks", .num 5)] =
      .ok "partially_correct" ∧
    deriveCorrectness [("marksReceived", .num 0), ("totalMarks", .num 5)] =
      .ok "incorrect" ∧
    deriveCorrectness [] = .ok "incorrect" ∧
    (∀ s : String, normalizeCorrectnessStr (.str s) = none →
      deriveCorrectness
        [("question", .num 2), ("marksReceived", .num 3),
         ("totalMarks", .num 5), ("correctness", .str s)] =
        .ok "partially_correct") := by
  refine ⟨?_, rfl, rfl, rfl, rfl, ?_⟩
  · intro m r h
    simp only [deriveCorrectness] at h
    split at h
    · rename_i s hs
      split_ifs at hs
      injection h with h'
      exact h' ▸ normalizeCorrectnessStr_cases _ _ hs
    · split at h
      · exact deriveFromMarks_cases _ _ _ h
      · injection h with h'
        exact Or.inr (Or.inl h'.symm)
  · intro s hs
    by_cases hse : s = ""
    · subst hse; rfl
    · unfold deriveCorrectness
      have ht : truthy (.str s) = true := by simp [truthy, hse]
      simp only [jgetD, jget, pyOr]
      simp [truthy, hse, hs, pyGtInt, pyGeVals, pyAsInt, deriveFromMarks]

/-- The newline rewrite of the repair pass is the identity. -/
theorem fixSub2Aux_id (s : List Char) : ∀ prev, fixSub2Aux prev s = s := by
  induction s with
  | nil => intro prev; rfl
  | cons c rest ih =>
    intro prev
    simp only [fixSub2Aux]
    split_ifs with h
    · rw [ih, h.1]
    · rw [ih]

/-- The trailing-comma rewrite leaves comma-free text unchanged. -/
theorem fixSub1F_id (fuel : Nat) :
    ∀ s : List Char, (∀ c ∈ s, c ≠ ',') → fixSub1F fuel s = s := by
  induction fuel with
  | zero => intro s _; cases s <;> rfl
  | succ fuel ih =>
    intro s hs
    match s with
    | [] => rfl
    | c :: rest =>
      have hc : c ≠ ',' := hs c (by simp)
      simp only [fixSub1F, if_neg hc]
      rw [ih rest (fun d hd => hs d (by simp [hd]))]

/-- The comment rewrite on an empty text. -/
theorem fixSub3F_nil (fuel : Nat) : fixSub3F fuel [] = [] := by
  cases fuel <;> rfl

/-- The comment rewrite on an opened comment. -/
theorem fixSub3F_dslash (fuel : Nat) (t : List Char) :
    fixSub3F (fuel + 1) ('/' :: '/' :: t) =
      fixSub3F fuel (t.dropWhile isNotNewline) := rfl

/-- Unfolding the comment rewrite when the head opens no comment. -/
theorem fixSub3F_cons (fuel : Nat) (c : Char) (t : List Char)
    (h : ¬(c = '/' ∧ ∃ u, t = '/' :: u)) :
    fixSub3F (fuel + 1) (c :: t) = c :: fixSub3F fuel t := by
  rw [fixSub3F.eq_def]
  split <;> simp_all

/-- A cons keeps a text `//`-free when its head is not a slash or the
tail does not start with one. -/
theorem noDSlash_cons (c : Char) (l : List Char)
    (h : noDSlash l = true)
    (hc : c ≠ '/' ∨ ∀ y ys, l = y :: ys → y ≠ '/') :
    noDSlash (c :: l) = true := by
  match l with
  | [] => rfl
  | y :: ys =>
    have : ¬(c = '/' ∧ y = '/') := by
      rintro ⟨h1, h2⟩
      rcases hc with hc | hc
      · exact hc h1
      · exact hc y ys rfl h2
    simp only [noDSlash, if_neg this]
    exact h

/-- If the head is not a slash, the comment rewrite keeps it in front
(possibly of an emptied tail). -/
theorem fixSub3F_head (fuel : Nat) (e : Char) (t : List Char)
    (he : e ≠ '/') :
    fixSub3F fuel (e :: t) = [] ∨
      ∃ ys, fixSub3F fuel (e :: t) = e :: ys := by
  cases fuel with
  | zero => exact Or.inl rfl
  | succ fuel =>
    right
    exact ⟨fixSub3F fuel t, fixSub3F_cons fuel e t (fun h => he h.1)⟩

/-- Characters of the comment rewrite's output come from its input. -/
theorem fixSub3F_mem (fuel : Nat) :
    ∀ (s : List Char) (c : Char), c ∈ fixSub3F fuel s → c ∈ s := by
  induction fuel with
  | zero => intro s c hc; cases s <;> simp_all [fixSub3F]
  | succ fuel ih =>
    intro s c hc
    rcases s with _ | ⟨d, t⟩
    · simpa [fixSub3F_nil] using hc
    · by_cases hsl : d = '/' ∧ ∃ u, t = '/' :: u
      · obtain ⟨hd, u, hu⟩ := hsl
        subst hd hu
        rw [fixSub3F_dslash] at hc
        have h1 := ih (u.dropWhile isNotNewline) c hc
        have h2 := (List.dropWhile_sublist isNotNewline (l := u)).subset h1
        simp [h2]
      · rw [fixSub3F_cons fuel d t hsl] at hc
        rcases List.mem_cons.mp hc with h | h
        · simp [h]
        · simp [ih t c h]

/-- The comment rewrite's output contains no `//`. -/
theorem fixSub3F_noDSlash (fuel : Nat) :
    ∀ s : List Char, noDSlash (fixSub3F fuel s) = true := by
  induction fuel with
  | zero => intro s; cases s <;> rfl
  | succ fuel ih =>
    intro s
    rcases s with _ | ⟨d, t⟩
    · rfl
    · by_cases hsl : d = '/' ∧ ∃ u, t = '/' :: u
      · obtain ⟨hd, u, hu⟩ := hsl
        subst hd hu
        rw [fixSub3F_dslash]
        exact ih (u.dropWhile isNotNewline)
      · rw [fixSub3F_cons fuel d t hsl]
        refine noDSlash_cons d (fixSub3F fuel t) (ih t) ?_
        rcases t with _ | ⟨e, t2⟩
        · exact Or.inr (fun y ys h => by rw [fixSub3F_nil] at h; cases h)
        · by_cases hd : d = '/'
          · have he : e ≠ '/' := fun h2 => hsl ⟨hd, t2, by rw [h2]⟩
            rcases fixSub3F_head fuel e t2 he with h0 | ⟨ys, hy⟩
            · exact Or.inr (fun y ys h => by rw [h0] at h; cases h)
            · refine Or.inr (fun y ys h => ?_)
              rw [hy] at h
              injection h with h1 _
              rw [h1] at he
              exact he
          · exact Or.inl hd

/-- The comment rewrite leaves `//`-free text unchanged. -/
theorem fixSub3F_id (fuel : Nat) :
    ∀ s : List Char, noDSlash s = true → s.length ≤ fuel →
      fixSub3F fuel s = s := by
  induction fuel with
  | zero =>
    intro s _ hl
    have : s = [] := List.length_eq_zero.mp (Nat.le_zero.mp hl)
    rw [this, fixSub3F_nil]
  | succ fuel ih =>
    intro s hs hl
    rcases s with _ | ⟨d, t⟩
    · rfl
    · have hsl : ¬(d = '/' ∧ ∃ u, t = '/' :: u) := by
        rintro ⟨hd, u, hu⟩
        subst hd hu
        simp [noDSlash] at hs
      rw [fixSub3F_cons fuel d t hsl]
      have ht : noDSlash t = true := by
        rcases t with _ | ⟨e, t2⟩
        · rfl
        · simp only [noDSlash] at hs
          split_ifs at hs
          exact hs
      rw [ih t ht (by simpa using Nat.le_of_succ_le_succ hl)]

/-- C3, amended: the repair pass is idempotent on comma-free input (the
newline rewrite is the identity and comment stripping is idempotent);
in general each application strips one layer of trailing commas, so a
second run can differ, and valid JSON whose strings contain `,` before a
bracket or `//` is altered. -/
theorem C3_amended (s : List Char) (hnc : ∀ c ∈ s, c ≠ ',') :
    fixJson (fixJson s) = fixJson s := by
  have fix_eq : fixJson s = fixSub3 s := by
    unfold fixJson fixSub2 fixSub1
    rw [fixSub2Aux_id, fixSub1F_id]
    exact hnc
  rw [fix_eq]
  have hnc3 : ∀ c ∈ fixSub3 s, c ≠ ',' := by
    intro c hc
    exact hnc c (fixSub3F_mem s.length s c hc)
  have fix_eq2 : fixJson (fixSub3 s) = fixSub3 (fixSub3 s) := by
    unfold fixJson fixSub2 fixSub1
    rw [fixSub2Aux_id, fixSub1F_id]
    exact hnc3
  rw [fix_eq2]
  unfold fixSub3
  rw [fixSub3F_id]
  · exact fixSub3F_noDSlash s.length s
  · exact Nat.le_refl _

/-- A successful `findIdx?` yields an element at that index satisfying
the predicate. -/
theorem findIdx?_some_get? {α : Type} (p : α → Bool) :
    ∀ (l : List α) (i : Nat), List.findIdx? p l = some i →
      ∃ a, l.get? i = some a ∧ p a = true := by
  intro l
  induction l with
  | nil => intro i h; rw [List.findIdx?_nil] at h; cases h
  | cons x xs ih =>
    intro i h
    rw [List.findIdx?_cons] at h
    split_ifs at h with hp
    · injection h with h1
      subst h1
      exact ⟨x, rfl, hp⟩
    · rw [List.findIdx?_succ] at h
      rcases hj : List.findIdx? p xs with _ | j
      · rw [hj] at h; cases h
      · rw [hj] at h
        injection h with h1
        subst h1
        obtain ⟨a, ha, hpa⟩ := ih j hj
        exact ⟨a, by rw [List.get?_cons_succ]; exact ha, hpa⟩

/-- In a list with pairwise-distinct option ids, the first option whose
id equals that of the element at index `i` is that element itself. -/
theorem find?_at_nodup :
    ∀ (l : List QOpt), (l.map QOpt.id).Nodup →
      ∀ (i : Nat) (a : QOpt), l.get? i = some a →
        l.find? (fun o => o.id = a.id) = some a := by
  intro l
  induction l with
  | nil => intro _ i a ha; cases ha
  | cons x xs ih =>
    intro hnd i a ha
    have hnd' := hnd
    rw [List.map_cons, List.nodup_cons] at hnd'
    cases i with
    | zero =>
      injection ha with h1
      subst h1
      simp [List.find?]
    | succ j =>
      rw [List.get?_cons_succ] at ha
      have hmem : a ∈ xs := List.get?_mem ha
      have hne : x.id ≠ a.id := by
        intro he
        exact hnd'.1 (he ▸ List.mem_map_of_mem QOpt.id hmem)
      rw [List.find?_cons_of_neg _ (by simpa using hne)]
      exact ih hnd'.2 j a ha

/-- The previous lemma, stated with an explicit target id. -/
theorem find?_at_nodup_t (l : List QOpt) (hnd : (l.map QOpt.id).Nodup)
    (i : Nat) (a : QOpt) (ha : l.get? i = some a) (t : String)
    (ht : a.id = t) :
    l.find? (fun o => o.id = t) = some a := by
  subst ht
  exact find?_at_nodup l hnd i a ha

/-- Reassigning ids keeps the option texts, position by position. -/
theorem reassignIds_texts :
    ∀ (opts : List QOpt) (ids : List String), opts.length = ids.length →
      (reassignIds opts ids).map QOpt.text = opts.map QOpt.text := by
  intro opts
  induction opts with
  | nil => intro ids _; rfl
  | cons o rest ih =>
    intro ids hl
    cases ids with
    | nil => cases hl
    | cons x xs =>
      have hstep : reassignIds (o :: rest) (x :: xs) =
          { o with id := x } :: reassignIds rest xs := rfl
      rw [hstep, List.map_cons, ih xs (by simpa using hl)]
      rfl

/-- Reassigning ids installs exactly the given ids. -/
theorem reassignIds_ids :
    ∀ (opts : List QOpt) (ids : List String), opts.length = ids.length →
      (reassignIds opts ids).map QOpt.id = ids := by
  intro opts
  induction opts with
  | nil => intro ids hl; cases ids with
    | nil => rfl
    | cons x xs => cases hl
  | cons o rest ih =>
    intro ids hl
    cases ids with
    | nil => cases hl
    | cons x xs =>
      have hstep : reassignIds (o :: rest) (x :: xs) =
          { o with id := x } :: reassignIds rest xs := rfl
      rw [hstep, List.map_cons, ih xs (by simpa using hl)]

/-- The reassigned list, position by position. -/
theorem reassignIds_get? :
    ∀ (opts : List QOpt) (ids : List String) (i : Nat) (o : QOpt) (x : String),
      opts.get? i = some o → ids.get? i = some x →
      (reassignIds opts ids).get? i = some { o with id := x } := by
  intro opts
  induction opts with
  | nil => intro ids i o x ho _; cases ho
  | cons a rest ih =>
    intro ids i o x ho hx
    cases ids with
    | nil => cases hx
    | cons y ys =>
      cases i with
      | zero =>
        injection ho with h1
        injection hx with h2
        subst h1 h2
        rfl
      | succ j =>
        rw [List.get?_cons_succ] at ho hx
        have hstep : reassignIds (a :: rest) (y :: ys) =
            { a with id := y } :: reassignIds rest ys := rfl
        rw [hstep, List.get?_cons_succ]
        exact ih ys j o x ho hx

/-- Witness for C3's amended claim: a concrete comma-free input (with a
comment and a newline) on which the pass is idempotent. -/
theorem C3_amended_witness :
    (∀ c ∈ "a//b\nc".toList, c ≠ ',') ∧
    fixJson (fixJson "a//b\nc".toList) = fixJson "a//b\nc".toList :=
  ⟨by decide, C3_amended "a//b\nc".toList (by decide)⟩

/-- C7, amended: for quiz records whose option ids are pairwise
distinct (as canonical ids are), every record the randomizer produces
preserves the multiset of option texts and the text of the option
referenced by `correctAnswer`; a record whose correct option cannot be
located is passed through unmodified. -/
theorem C7_amended (q : QuizQ) (sh : List QOpt) (q' : QuizQ)
    (hperm : sh.Perm q.options)
    (hnd : (q.options.map QOpt.id).Nodup)
    (h : randomizeOne q sh = .ok q') :
    (q'.options.map QOpt.text).Perm (q.options.map QOpt.text) ∧
    refText q' = refText q ∧
    (q.options.find? (fun o => o.id = q.correctAnswer) = none → q' = q) := by
  unfold randomizeOne at h
  split at h
  · split at h
    · injection h with h1
      subst h1
      exact ⟨List.Perm.refl _, rfl, fun _ => rfl⟩
    · rename_i c hfind
      split at h
      · injection h with h1
        subst h1
        exact ⟨List.Perm.refl _, rfl,
          fun hn => absurd (hfind.symm.trans hn) (by simp)⟩
      · rename_i idx hidx
        split at h
        · rename_i hle
          injection h with h1
          subst h1
          obtain ⟨o, ho, hpo⟩ := findIdx?_some_get? _ sh idx hidx
          have hoid : o.id = q.correctAnswer := by simpa using hpo
          have hcid : c.id = q.correctAnswer := by
            have hcp := List.find?_some hfind
            simpa using hcp
          have hcm : c ∈ q.options := List.mem_of_find?_eq_some hfind
          have hom : o ∈ q.options := hperm.subset (List.get?_mem ho)
          have hoc : o = c :=
            List.inj_on_of_nodup_map hnd hom hcm (by rw [hoid, hcid])
          have hlenids : (randOptionIds.take sh.length).length = sh.length := by
            rw [List.length_take]
            have h6 : randOptionIds.length = 6 := rfl
            omega
          have hidxlt : idx < sh.length := by
            by_contra hh
            rw [List.get?_eq_none.mpr (by omega)] at ho
            cases ho
          obtain ⟨x, hx⟩ : ∃ x, (randOptionIds.take sh.length).get? idx = some x := by
            rcases hxx : (randOptionIds.take sh.length).get? idx with _ | x
            · rw [List.get?_eq_none] at hxx
              omega
            · exact ⟨x, rfl⟩
          have hndids : (randOptionIds.take sh.length).Nodup :=
            (by decide : randOptionIds.Nodup).sublist (List.take_sublist _ _)
          have hcaeq : (randOptionIds.take sh.length).getD idx "a" = x := by
            rw [List.getD_eq_get?, hx]
            rfl
          have hget' := reassignIds_get? sh (randOptionIds.take sh.length) idx o x ho hx
          have hlen' : sh.length = (randOptionIds.take sh.length).length := hlenids.symm
          have hmapids : (reassignIds sh (randOptionIds.take sh.length)).map QOpt.id =
              randOptionIds.take sh.length := reassignIds_ids _ _ hlen'
          refine ⟨?_, ?_,
            fun hn => absurd (hfind.symm.trans hn) (by simp)⟩
          · show (List.map QOpt.text (reassignIds sh (randOptionIds.take sh.length))).Perm _
            rw [reassignIds_texts _ _ hlen']
            exact hperm.map QOpt.text
          · show ((reassignIds sh (randOptionIds.take sh.length)).find?
              (fun o2 => o2.id = (randOptionIds.take sh.length).getD idx "a")).map
                QOpt.text = refText q
            rw [find?_at_nodup_t (reassignIds sh (randOptionIds.take sh.length))
              (by rw [hmapids]; exact hndids) idx { o with id := x } hget'
              ((randOptionIds.take sh.length).getD idx "a") (by rw [hcaeq])]
            show some o.text = refText q
            rw [refText, hfind, hoc]
            rfl
        · exact Except.noConfusion h
  · injection h with h1
    subst h1
    exact ⟨List.Perm.refl _, rfl, fun _ => rfl⟩

/-- C7 counterexample.  With duplicate option ids — which the validator
does not rule out — the transposition of `c7Dup`'s options makes the
rebound `correctAnswer` refer to the text `Y` where it referred to `X`
before, although the shuffled list is a permutation of the options. -/
theorem C7_counterexample :
    c7Shuffled.Perm c7Dup.options ∧
    randomizeOne c7Dup c7Shuffled =
      .ok { c7Dup with options := [⟨"a", "Y"⟩, ⟨"b", "X"⟩], correctAnswer := "a" } ∧
    refText c7Dup = some "X" ∧
    refText { c7Dup with options := [⟨"a", "Y"⟩, ⟨"b", "X"⟩], correctAnswer := "a" } =
      some "Y" ∧
    some "X" ≠ some "Y" := by
  refine ⟨by decide, rfl, rfl, rfl, by decide⟩

/-- Witness for C7's amended claim: a 3-option record with distinct ids
under a rotation — the randomizer relabels the options `a, b, c` and the
referenced text is preserved. -/
theorem C7_amended_witness :
    ([⟨"c", "Z"⟩, ⟨"b", "Y"⟩, ⟨"a", "X"⟩] : List QOpt).Perm
      [⟨"a", "X"⟩, ⟨"b", "Y"⟩, ⟨"c", "Z"⟩] ∧
    (([⟨"a", "X"⟩, ⟨"b", "Y"⟩, ⟨"c", "Z"⟩] : List QOpt).map QOpt.id).Nodup ∧
    (((randomizeOne
        { qid := "1", text := "t",
          options := [⟨"a", "X"⟩, ⟨"b", "Y"⟩, ⟨"c", "Z"⟩],
          correctAnswer := "b", explanation := "", topic := "T" }
        [⟨"c", "Z"⟩, ⟨"b", "Y"⟩, ⟨"a", "X"⟩] = .ok
      { qid := "1", text := "t",
        options := [⟨"a", "Z"⟩, ⟨"b", "Y"⟩, ⟨"c", "X"⟩],
        correctAnswer := "b", explanation := "", topic := "T" }) ∧ True) ∧
     (([⟨"a", "Z"⟩, ⟨"b", "Y"⟩, ⟨"c", "X"⟩] : List QOpt).map QOpt.text).Perm
       (([⟨"a", "X"⟩, ⟨"b", "Y"⟩, ⟨"c", "Z"⟩] : List QOpt).map QOpt.text)) := by
  refine ⟨by decide, by decide, ⟨rfl, trivial⟩, ?_⟩
  have := (C7_amended
      { qid := "1", text := "t",
        options := [⟨"a", "X"⟩, ⟨"b", "Y"⟩, ⟨"c", "Z"⟩],
        correctAnswer := "b", explanation := "", topic := "T" }
      [⟨"c", "Z"⟩, ⟨"b", "Y"⟩, ⟨"a", "X"⟩]
      { qid := "1", text := "t",
        options := [⟨"a", "Z"⟩, ⟨"b", "Y"⟩, ⟨"c", "X"⟩],
        correctAnswer := "b", explanation := "", topic := "T" }
      (by decide) (by decide) rfl).1
  exact this

/-- Witness for C6: the universal parts instantiated — 3/5 marks with no
correctness string, and 3/5 marks with the unrecognized string
`"mostly right"`, both derive `partially_correct`. -/
theorem C6_witness :
    ("partially_correct" = "correct" ∨ "partially_correct" = "incorrect" ∨
      "partially_correct" = "partially_correct") ∧
    deriveCorrectness
      [("question", .num 2), ("marksReceived", .num 3),
       ("totalMarks", .num 5), ("correctness", .str "mostly right")] =
      .ok "partially_correct" :=
  ⟨C6_correctness_derivation.1
     [("marksReceived", .num 3), ("totalMarks", .num 5)] "partially_correct" rfl,
   C6_correctness_derivation.2.2.2.2.2 "mostly right" rfl⟩

/-- C9: both extraction entry points, with their `try/except` modelled
explicitly, always return a list and never propagate an exception — for
the quiz schema the body is total, and for the error schema every
exception the body can raise is mapped to `[]` by the handler; on the
empty string and on garbled non-JSON input both return the empty list. -/
theorem C9_no_exception_always_list :
    (∀ s, parseQuizQuestionsE s = .ok (parseQuizQuestions s)) ∧
    (∀ s, parseMidtermAnalysisE s = .ok (parseMidtermAnalysis s)) ∧
    parseQuizQuestions "" = [] ∧
    parseMidtermAnalysis "" = [] ∧
    parseQuizQuestions c9Garbled = [] ∧
    parseMidtermAnalysis c9Garbled = [] := by
  refine ⟨fun s => rfl, fun s => ?_, rfl, rfl, rfl, rfl⟩
  unfold parseMidtermAnalysisE parseMidtermAnalysis
  cases parseMidtermBody s.toList <;> rfl

/-- Strategy-2 unfolding at a cons: the head position contributes its
candidate (when it has one) through the best-so-far update. -/
theorem strat2Aux_cons (c : Char) (rest : List Char) (best : List JVal) :
    strat2Aux (c :: rest) best =
      strat2Aux rest (match strat2CandidateOf (c :: rest) with
        | some cand => pickLonger best cand
        | none => best) := by
  by_cases hc : c = '['
  · subst hc
    rcases hs : scanArrayLen ('[' :: rest) with _ | n
    · simp [strat2Aux, strat2CandidateOf, hs]
    · rcases hp : jparseL (List.take n ('[' :: rest)) with _ | v
      · rcases hp2 : jparseL (fixJson (List.take n ('[' :: rest))) with _ | v2
        · simp [strat2Aux, strat2CandidateOf, hs, hp, hp2, pickLonger] <;>
            first
            | rfl
            | ((split_ifs <;> simp_all) <;> (split <;> first | rfl | omega))
            | simp_all
        · cases v2 <;>
            simp [strat2Aux, strat2CandidateOf, hs, hp, hp2, pickLonger] <;>
            first
            | rfl
            | ((split_ifs <;> simp_all) <;> (split <;> first | rfl | omega))
            | simp_all
      · cases v <;>
          simp [strat2Aux, strat2CandidateOf, hs, hp, pickLonger] <;>
          first
          | rfl
          | ((split_ifs <;> simp_all) <;> (split <;> first | rfl | omega))
          | simp_all
  · simp [strat2Aux, strat2CandidateOf, hc]

/-- The strategy-2 loop is the left fold of the best-so-far update over
the candidate lists taken in text order. -/
theorem strat2Aux_eq_foldl :
    ∀ (cs : List Char) (best : List JVal),
      strat2Aux cs best = (strat2Candidates cs).foldl pickLonger best := by
  intro cs
  induction cs with
  | nil => intro best; rfl
  | cons c rest ih =>
    intro best
    rw [strat2Aux_cons]
    rcases hco : strat2CandidateOf (c :: rest) with _ | cand
    · simp only [strat2Candidates, hco]
      exact ih best
    · simp only [strat2Candidates, hco, List.foldl_cons]
      exact ih (pickLonger best cand)

/-- What the left fold of the best-so-far update keeps: an upper bound
for every candidate and for the initial value, and the result is either
the initial value (no candidate was strictly longer) or the first
candidate strictly longer than the initial value and than everything
before it, with nothing after it strictly longer. -/
theorem foldl_pickLonger_spec :
    ∀ (l : List (List JVal)) (b : List JVal),
      (∀ c ∈ l, c.length ≤ (l.foldl pickLonger b).length) ∧
      b.length ≤ (l.foldl pickLonger b).length ∧
      (l.foldl pickLonger b = b ∨
        ∃ pre c post, l = pre ++ c :: post ∧ l.foldl pickLonger b = c ∧
          b.length < c.length ∧ (∀ d ∈ pre, d.length < c.length) ∧
          (∀ d ∈ post, d.length ≤ c.length)) := by
  intro l
  induction l with
  | nil =>
    intro b
    exact ⟨by simp, Nat.le_refl _, Or.inl rfl⟩
  | cons c l2 ih =>
    intro b
    by_cases hc : b.length < c.length
    · have hstep : List.foldl pickLonger b (c :: l2) =
          List.foldl pickLonger c l2 := by
        simp [pickLonger, hc]
      obtain ⟨ihmax, ihbase, ihalt⟩ := ih c
      refine ⟨?_, ?_, ?_⟩
      · intro d hd
        rcases List.mem_cons.mp hd with h | h
        · rw [hstep, h]; exact ihbase
        · rw [hstep]; exact ihmax d h
      · rw [hstep]; exact Nat.le_trans (Nat.le_of_lt hc) ihbase
      · rw [hstep]
        rcases ihalt with heq | ⟨pre, c0, post, hl, hr, hbc, hpre, hpost⟩
        · refine Or.inr ⟨[], c, l2, rfl, heq, hc, by simp, ?_⟩
          intro d hd
          have hle := ihmax d hd
          rw [heq] at hle
          exact hle
        · refine Or.inr ⟨c :: pre, c0, post, by rw [hl, List.cons_append], hr,
            Nat.lt_trans hc hbc, ?_, hpost⟩
          intro d hd
          rcases List.mem_cons.mp hd with h | h
          · rw [h]; exact hbc
          · exact hpre d h
    · have hstep : List.foldl pickLonger b (c :: l2) =
          List.foldl pickLonger b l2 := by
        simp [pickLonger, hc]
      obtain ⟨ihmax, ihbase, ihalt⟩ := ih b
      refine ⟨?_, ?_, ?_⟩
      · intro d hd
        rcases List.mem_cons.mp hd with h | h
        · rw [hstep, h]; exact Nat.le_trans (Nat.le_of_not_lt hc) ihbase
        · rw [hstep]; exact ihmax d h
      · rw [hstep]; exact ihbase
      · rw [hstep]
        rcases ihalt with heq | ⟨pre, c0, post, hl, hr, hbc, hpre, hpost⟩
        · exact Or.inl heq
        · refine Or.inr ⟨c :: pre, c0, post, by rw [hl, List.cons_append], hr, hbc, ?_, hpost⟩
          intro d hd
          rcases List.mem_cons.mp hd with h | h
          · rw [h]; exact Nat.lt_of_le_of_lt (Nat.le_of_not_lt hc) hbc
          · exact hpre d h

/-- C5, amended.  The universal-recovery half of the claim fails (see
the counterexample), but an embedded valid array whose strings contain
no unbalanced bracket is recovered in full — concretely, `c5Prose`
yields exactly its one record — and the selection rule holds: the
strategy-2 loop folds the best-so-far update over the candidate lists in
text order, and that fold keeps the candidate list with the most
elements, ties broken by first occurrence (a later candidate replaces
the best only when strictly longer). -/
theorem C5_amended :
    parseQuizQuestions c5Prose = [c5ProseRecVal] ∧
    (∀ (cs : List Char) (best : List JVal),
      strat2Aux cs best = (strat2Candidates cs).foldl pickLonger best) ∧
    (∀ (l : List (List JVal)) (b : List JVal),
      (∀ c ∈ l, c.length ≤ (l.foldl pickLonger b).length) ∧
      (l.foldl pickLonger b = b ∨
        ∃ pre c post, l = pre ++ c :: post ∧ l.foldl pickLonger b = c ∧
          b.length < c.length ∧ (∀ d ∈ pre, d.length < c.length) ∧
          (∀ d ∈ post, d.length ≤ c.length))) :=
  ⟨rfl, strat2Aux_eq_foldl,
   fun l b => ⟨(foldl_pickLonger_spec l b).1, (foldl_pickLonger_spec l b).2.2⟩⟩

/-- Strategy 1 of the quiz salvage scanner emits its records at
positions bounded below by the scan position and strictly increasing. -/
theorem extractQObjsF_spec :
    ∀ (fuel : Nat) (cs : List Char) (i cnt : Nat),
      (∀ p ∈ extractQObjsF fuel cs i cnt, i ≤ p.1) ∧
      (extractQObjsF fuel cs i cnt).Pairwise (fun a b => a.1 < b.1) := by
  intro fuel
  induction fuel with
  | zero =>
    intro cs i cnt
    refine ⟨fun p hp => ?_, ?_⟩
    · simp [extractQObjsF] at hp
    · simp only [extractQObjsF]
      exact List.Pairwise.nil
  | succ fuel ih =>
    intro cs i cnt
    cases cs with
    | nil =>
      refine ⟨fun p hp => ?_, ?_⟩
      · simp [extractQObjsF] at hp
      · simp only [extractQObjsF]
        exact List.Pairwise.nil
    | cons c rest =>
      simp only [extractQObjsF]
      repeat' split
      all_goals first
      | (refine ⟨fun p hp => ?_, (ih _ _ _).2⟩
         have := (ih _ _ _).1 p hp
         omega)
      | (constructor
         · intro p hp
           rcases List.mem_cons.mp hp with h | h
           · subst h; exact Nat.le_refl i
           · have := (ih _ _ _).1 p h
             omega
         · refine List.Pairwise.cons (fun b hb => ?_) (ih _ _ _).2
           have := (ih _ _ _).1 b hb
           show i < b.1
           omega)

/-- The fallback-pattern scan of the quiz salvage emits its matches at
positions bounded below by the scan position and strictly increasing. -/
theorem findQPatF_spec :
    ∀ (fuel : Nat) (cs : List Char) (i : Nat),
      (∀ p ∈ findQPatF fuel cs i, i ≤ p.1) ∧
      (findQPatF fuel cs i).Pairwise (fun a b => a.1 < b.1) := by
  intro fuel
  induction fuel with
  | zero =>
    intro cs i
    refine ⟨fun p hp => ?_, ?_⟩
    · simp [findQPatF] at hp
    · simp only [findQPatF]
      exact List.Pairwise.nil
  | succ fuel ih =>
    intro cs i
    cases cs with
    | nil =>
      refine ⟨fun p hp => ?_, ?_⟩
      · simp [findQPatF] at hp
      · simp only [findQPatF]
        exact List.Pairwise.nil
    | cons c rest =>
      simp only [findQPatF]
      repeat' split
      all_goals first
      | (refine ⟨fun p hp => ?_, (ih _ _).2⟩
         have := (ih _ _).1 p hp
         omega)
      | (constructor
         · intro p hp
           rcases List.mem_cons.mp hp with h | h
           · subst h; exact Nat.le_refl i
           · have := (ih _ _).1 p h
             omega
         · refine List.Pairwise.cons (fun b hb => ?_) (ih _ _).2
           have := (ih _ _).1 b hb
           show i < b.1
           omega)

/-- The payload of an enumerated element is an element of the list. -/
theorem snd_mem_of_mem_enumFrom {α : Type} :
    ∀ (l : List α) (n : Nat) (x : Nat × α), x ∈ l.enumFrom n → x.2 ∈ l := by
  intro l
  induction l with
  | nil =>
    intro n x hx
    simp [List.enumFrom] at hx
  | cons a l2 ih =>
    intro n x hx
    simp only [List.enumFrom] at hx
    rcases List.mem_cons.mp hx with h | h
    · rw [h]
      exact List.mem_cons_self a l2
    · exact List.mem_cons.mpr (Or.inr (ih (n + 1) x h))

/-- Filtering an enumerated match list through a position-preserving
processor keeps the positions strictly increasing. -/
theorem qFallback_pairwise_aux
    (F : Nat × (Nat × Nat) → Option (Nat × JVal))
    (hF : ∀ (x : Nat × (Nat × Nat)) (w : Nat × JVal),
      F x = some w → w.1 = x.2.1) :
    ∀ (l : List (Nat × Nat)) (k : Nat),
      l.Pairwise (fun a b => a.1 < b.1) →
      ((l.enumFrom k).filterMap F).Pairwise (fun a b => a.1 < b.1) := by
  intro l
  induction l with
  | nil =>
    intro k h
    simp [List.enumFrom]
  | cons p l2 ih =>
    intro k h
    cases h with
    | cons hp h2 =>
      simp only [List.enumFrom, List.filterMap_cons]
      rcases hFk : F (k, p) with _ | w
      · simp only []
        exact ih (k + 1) h2
      · simp only []
        refine List.Pairwise.cons (fun w2 hw2 => ?_) (ih (k + 1) h2)
        obtain ⟨x, hx, hFx⟩ := List.mem_filterMap.mp hw2
        have h1 : w.1 = p.1 := hF (k, p) w hFk
        have h2x : w2.1 = x.2.1 := hF x w2 hFx
        have h3 : x.2 ∈ l2 := snd_mem_of_mem_enumFrom l2 (k + 1) x hx
        have h4 : p.1 < x.2.1 := hp x.2 h3
        rw [h1, h2x]
        exact h4

/-- The fallback branch of the quiz salvage scanner emits its records at
strictly increasing text offsets. -/
theorem qFallback_pairwise (cs : List Char) :
    (qFallback cs).Pairwise (fun a b => a.1 < b.1) := by
  have hF : ∀ (x : Nat × (Nat × Nat)) (w : Nat × JVal),
      ((qFallbackOne ((cs.drop x.2.1).take x.2.2) (x.1 + 1)).map
        (fun v => (x.2.1, v))) = some w → w.1 = x.2.1 := by
    intro x w hx
    rcases hq : qFallbackOne ((cs.drop x.2.1).take x.2.2) (x.1 + 1) with _ | u
    · rw [hq] at hx
      exact Option.noConfusion hx
    · rw [hq] at hx
      injection hx with h1
      rw [← h1]
  have h := qFallback_pairwise_aux _ hF (findQPatF cs.length cs 0) 0
    (findQPatF_spec cs.length cs 0).2
  exact h

/-- A question the validator keeps (or skips without an exception as a
kept record) is a parsed object. -/
theorem processQuestion_ok_obj (q : JVal) (k : Nat) (ts : List String)
    (v : JVal) (h : processQuestion q k ts = .ok (some v)) :
    ∃ m, q = .obj m := by
  cases q with
  | obj m => exact ⟨m, rfl⟩
  | null => simp [processQuestion] at h
  | bool b => simp [processQuestion] at h
  | num n => simp [processQuestion] at h
  | str s => simp [processQuestion] at h
  | arr l => simp [processQuestion] at h

/-- The `text` field of a record the validator keeps is the stripped
resolved question text of the raw record. -/
theorem processQuestion_text (m : List (String × JVal)) (k : Nat)
    (ts : List String) (v : JVal)
    (h : processQuestion (.obj m) k ts = .ok (some v)) :
    vField v "text" = rawTextKey (.obj m) := by
  simp only [processQuestion] at h
  split at h
  · simp at h
  · split at h
    · rename_i s hqt
      split at h
      · simp at h
      · split at h
        · simp at h
        · split at h
          · simp at h
          · split at h
            · simp at h
            · split at h
              · simp at h
              · injection h with h1
                injection h1 with h2
                subst h2
                simp only [rawTextKey]
                rw [hqt]
                simp [vField, jgetD, jget]
    · simp at h

/-- The validation loop only filters: the text keys of its output form a
sublist of the text keys of its input. -/
theorem validateAux_sublist (ts : List String) :
    ∀ (qs : List JVal) (kept : Nat) (out : List JVal),
      validateQuestionsAux ts qs kept = .ok out →
      (out.map (fun v => vField v "text")).Sublist (qs.map rawTextKey) := by
  intro qs
  induction qs with
  | nil =>
    intro kept out h
    simp only [validateQuestionsAux] at h
    injection h with h1
    subst h1
    simp
  | cons q rest ih =>
    intro kept out h
    simp only [validateQuestionsAux] at h
    split at h
    · exact Except.noConfusion h
    · have hs := ih kept out h
      have hstep : (List.map rawTextKey rest).Sublist
          (List.map rawTextKey (q :: rest)) := by
        simp only [List.map_cons]
        exact List.sublist_cons_self _ _
      exact hs.trans hstep
    · rename_i v hpq
      split at h
      · exact Except.noConfusion h
      · rename_i vs hrec
        injection h with h1
        subst h1
        obtain ⟨m, hm⟩ := processQuestion_ok_obj q kept ts v hpq
        subst hm
        have htext := processQuestion_text m kept ts v hpq
        simp only [List.map_cons]
        rw [htext]
        exact List.Sublist.cons₂ _ (ih (kept + 1) vs hrec)

/-- C10: the quiz salvage scanner — both the balanced-scan strategy and
the regex fallback — emits its records at strictly increasing text
offsets, so output order is source order; and whenever the validation
loop of `generate_quiz_from_errors` succeeds, the text keys of its
output form a sublist of the raw records' text keys: it filters records
without reordering them. -/
theorem C10_order_preservation :
    (∀ cs : List Char,
      (extractQuestionsInstr cs).Pairwise (fun a b => a.1 < b.1)) ∧
    (∀ (qs : List JVal) (ts : List String) (out : List JVal),
      validateQuestions qs ts = .ok out →
      (out.map (fun v => vField v "text")).Sublist (qs.map rawTextKey)) := by
  constructor
  · intro cs
    simp only [extractQuestionsInstr]
    split
    · exact qFallback_pairwise cs
    · exact (extractQObjsF_spec cs.length cs 0 0).2
  · intro qs ts out h
    exact validateAux_sublist ts qs 0 out h

/-- Witness for C10: on the concrete record `c1Raw` the validator
succeeds and its output text keys form a sublist of the input text
keys. -/
theorem C10_witness :
    ([c1Out].map (fun v => vField v "text")).Sublist
      ([c1Raw].map rawTextKey) :=
  C10_order_preservation.2 [c1Raw] ["TopicX"] [c1Out] rfl

end StudyBuddy
